import Mathlib

/-!
Verification of the linear-programming solver core: a shallow embedding of the
simplex engine (`SimplexSolver`), the sensitivity analyzer
(`SensitivityAnalyzer`) and the two-variable graphical engine
(`GraphicalSolver`), with theorems settling the specification claims.

Modelling conventions:
* JavaScript numbers are modelled as `ℚ` (all concrete computations in scope
  involve only dyadic rationals, where IEEE arithmetic is exact).
* JavaScript `undefined` reads from arrays are modelled with `List.getD`
  defaults; fallible lookups with `Option`.
* `Math.random()` draws are modelled by an explicit stream `rand : ℕ → ℚ`
  threaded through the analyzer in call order.
* `±Infinity` values are modelled by the three-valued type `XVal`.
* Display-only string fields (`explanation`, `steps`, point labels, the numeric
  interpolation inside recommendation texts) are elided: no computation ever
  reads them back.
-/

/-- Decimal digit character, mirroring the rendering of `${n}` template
interpolation for natural counters. -/
def digitChar (d : ℕ) : Char := Char.ofNat (48 + d)

/-- Decimal digit characters of `n`, most significant first (`fuel ≥ n`). -/
def decChars : ℕ → ℕ → List Char
  | 0, _ => []
  | fuel + 1, n => if n = 0 then [] else decChars fuel (n / 10) ++ [digitChar (n % 10)]

/-- Decimal rendering of a natural number, as produced by `${n}` in the source. -/
def decStr (n : ℕ) : String := if n = 0 then ("0") else String.mk (decChars n n)

/-- Numeric value of a digit character. -/
def digitVal (c : Char) : ℕ := c.toNat - 48

/-- Value of a decimal digit string, most significant digit first. -/
def charsVal (l : List Char) : ℕ := l.foldl (fun a c => 10 * a + digitVal c) 0

theorem charsVal_append_digit (l : List Char) (c : Char) :
    charsVal (l ++ [c]) = 10 * charsVal l + digitVal c := by
  simp [charsVal, List.foldl_append]

theorem digitVal_digitChar (d : ℕ) (h : d < 10) : digitVal (digitChar d) = d := by
  interval_cases d <;> rfl

theorem charsVal_decChars : ∀ fuel n, n ≤ fuel → charsVal (decChars fuel n) = n := by
  intro fuel
  induction fuel with
  | zero => intro n hn; interval_cases n; rfl
  | succ f ih =>
    intro n hn
    by_cases h0 : n = 0
    · subst h0; simp [decChars, charsVal]
    · have hdiv : n / 10 ≤ f := by
        have : n / 10 < n := Nat.div_lt_self (Nat.pos_of_ne_zero h0) (by norm_num)
        omega
      simp only [decChars, h0, if_false]
      rw [charsVal_append_digit, ih _ hdiv, digitVal_digitChar _ (Nat.mod_lt _ (by norm_num))]
      omega

theorem decStr_inj : Function.Injective decStr := by
  intro m n h
  have hval : charsVal (decStr m).data = charsVal (decStr n).data := by rw [h]
  by_cases hm : m = 0 <;> by_cases hn : n = 0
  · omega
  · exfalso
    simp only [decStr, hm, hn, if_true, if_false] at hval
    have h1 : charsVal (String.mk (decChars n n)).data = n := charsVal_decChars n n le_rfl
    have h0 : charsVal (("0" : String)).data = 0 := rfl
    rw [h0, h1] at hval
    omega
  · exfalso
    simp only [decStr, hm, hn, if_true, if_false] at hval
    have h1 : charsVal (String.mk (decChars m m)).data = m := charsVal_decChars m m le_rfl
    have h0 : charsVal (("0" : String)).data = 0 := rfl
    rw [h1, h0] at hval
    omega
  · simp only [decStr, hm, hn, if_false] at hval
    have h1 : charsVal (String.mk (decChars m m)).data = m := charsVal_decChars m m le_rfl
    have h2 : charsVal (String.mk (decChars n n)).data = n := charsVal_decChars n n le_rfl
    rw [h1, h2] at hval
    exact hval

theorem string_append_inj_right (p x y : String) (h : p ++ x = p ++ y) : x = y := by
  have hd : p.data ++ x.data = p.data ++ y.data := by
    have := congrArg String.data h
    simpa using this
  have h2 := List.append_cancel_left hd
  cases x; cases y; exact congrArg String.mk h2

/-! ## Data model (`Problem` as produced by the parser) -/

/-- A single constraint of a `Problem`. The display field `expression` is kept
because the analyzer uses it (with a fallback) to name constraints. -/
structure LPConstraint where
  coefficients : List ℚ
  operator : String
  rhs : ℚ
  expression : String
deriving DecidableEq

structure LPObjective where
  coefficients : List ℚ
deriving DecidableEq

structure LPProblem where
  type : String
  objective : LPObjective
  constraints : List LPConstraint
  vars : List String
deriving DecidableEq

/-! ## Simplex solver -/

/-- A constraint in standard form, with the auxiliary variable names attached
by `convertToStandardForm`. -/
structure StdConstraint where
  coefficients : List ℚ
  rhs : ℚ
  slackVar : Option String
  surplusVar : Option String
  artificialVar : Option String
deriving DecidableEq

structure StandardForm where
  type : String
  originalType : String
  objectiveCoefficients : List ℚ
  vars : List String
  constraints : List StdConstraint
  slackVarCount : ℕ
  surplusVarCount : ℕ
  artificialVarCount : ℕ
deriving DecidableEq

structure SimplexTableau where
  table : List (List ℚ)
  basicVariables : List String
  nonBasicVariables : List String
  objectiveRow : List ℚ
  rhs : List ℚ
  iteration : ℕ
  isOptimal : Bool
  pivotRow : Option ℕ
  pivotCol : Option ℕ
deriving DecidableEq

/-- Extended value: a finite rational or `±Infinity`. -/
inductive XVal where
  | fin : ℚ → XVal
  | posInf : XVal
  | negInf : XVal
deriving DecidableEq

structure SolveOut where
  isOptimal : Bool
  isFeasible : Bool
  isUnbounded : Bool
  optimalValue : XVal
  vars : List (String × ℚ)
  tableaus : List SimplexTableau
  finalTableau : SimplexTableau
deriving DecidableEq

/-- `map` carrying the element index, mirroring indexed `for` loops. -/
def mapWithIndex (f : ℕ → α → β) : ℕ → List α → List β
  | _, [] => []
  | k, x :: xs => f k x :: mapWithIndex f (k + 1) xs

/-- First index of an element, mirroring `Array.prototype.indexOf`. -/
def idxOfGo (a : String) : List String → ℕ → Option ℕ
  | [], _ => none
  | x :: xs, i => if x = a then some i else idxOfGo a xs (i + 1)

def tol10 : ℚ := 1 / 10000000000

def tol9 : ℚ := 1 / 1000000000

namespace SimplexSolver

/-- Recursion of `convertToStandardForm` over the constraints, threading the
three per-kind counters (`slackVarCount`, `surplusVarCount`,
`artificialVarCount`). -/
def convertConsGo : List LPConstraint → ℕ → ℕ → ℕ → List StdConstraint × ℕ × ℕ × ℕ
  | [], s, u, a => ([], s, u, a)
  | c :: rest, s, u, a =>
    if c.operator = ("≤") then
      let r := convertConsGo rest (s + 1) u a
      (⟨c.coefficients, c.rhs, some (("s") ++ decStr (s + 1)), none, none⟩ :: r.1, r.2)
    else if c.operator = ("≥") then
      let r := convertConsGo rest s (u + 1) (a + 1)
      (⟨c.coefficients, c.rhs, none, some (("s") ++ decStr (u + 1)),
        some (("a") ++ decStr (a + 1))⟩ :: r.1, r.2)
    else if c.operator = ("=") then
      let r := convertConsGo rest s u (a + 1)
      (⟨c.coefficients, c.rhs, none, none, some (("a") ++ decStr (a + 1))⟩ :: r.1, r.2)
    else
      let r := convertConsGo rest s u a
      (⟨c.coefficients, c.rhs, none, none, none⟩ :: r.1, r.2)

def convertToStandardForm (p : LPProblem) : StandardForm :=
  let objCoeffs :=
    if p.type = ("minimize") then p.objective.coefficients.map (fun c => -c)
    else p.objective.coefficients
  let r := convertConsGo p.constraints 0 0 0
  { type := p.type, originalType := p.type, objectiveCoefficients := objCoeffs,
    vars := p.vars, constraints := r.1,
    slackVarCount := r.2.1, surplusVarCount := r.2.2.1, artificialVarCount := r.2.2.2 }

/-- Auxiliary-variable columns of constraint row `i`: the inner loop of
`initializeTableau` over all constraints `k`, emitting one slot per attached
slack (+1 on its own row), surplus (−1) and artificial (+1) variable. -/
def auxColsGo (i : ℕ) : List StdConstraint → ℕ → List ℚ
  | [], _ => []
  | c :: rest, k =>
    (match c.slackVar with | some _ => [if k = i then (1 : ℚ) else 0] | none => []) ++
    (match c.surplusVar with | some _ => [if k = i then (-1 : ℚ) else 0] | none => []) ++
    (match c.artificialVar with | some _ => [if k = i then (1 : ℚ) else 0] | none => []) ++
    auxColsGo i rest (k + 1)

/-- `checkOptimality`: every objective-row entry except the RHS is `≥ −1e-10`. -/
def checkOptimality (objectiveRow : List ℚ) : Bool :=
  objectiveRow.dropLast.all (fun v => !(decide (v < -tol10)))

/-- The `nonBasicVariables` push loop of `initializeTableau` (run after
`basicVariables` is fully built). -/
def nonBasicPushes (basic : List String) : List StdConstraint → List String
  | [] => []
  | c :: rest =>
    (match c.slackVar with
     | some s => if basic.contains s then [] else [s]
     | none => []) ++
    (match c.surplusVar with | some u => [u] | none => []) ++
    (match c.artificialVar with
     | some a => if basic.contains a then [] else [a]
     | none => []) ++
    nonBasicPushes basic rest

def initializeTableau (sf : StandardForm) : SimplexTableau :=
  let numVars := sf.vars.length
  let totalVars := numVars + sf.slackVarCount + sf.surplusVarCount + sf.artificialVarCount
  let rows := mapWithIndex (fun i c =>
      (List.range numVars).map (fun j => c.coefficients.getD j 0)
      ++ auxColsGo i sf.constraints 0 ++ [c.rhs]) 0 sf.constraints
  let objectiveRow :=
    (List.range numVars).map (fun j => -(sf.objectiveCoefficients.getD j 0))
    ++ List.replicate (totalVars + 1 - numVars) 0
  let basicVariables := sf.constraints.filterMap (fun c =>
    match c.slackVar with
    | some s => some s
    | none => c.artificialVar)
  let table := rows ++ [objectiveRow]
  let nbAll := sf.vars ++ nonBasicPushes basicVariables sf.constraints
  let nonBasicVariables := basicVariables.foldl (fun l b => l.erase b) nbAll
  { table := table, basicVariables := basicVariables, nonBasicVariables := nonBasicVariables,
    objectiveRow := objectiveRow,
    rhs := table.map (fun row => row.getD (row.length - 1) 0),
    iteration := 0, isOptimal := checkOptimality objectiveRow,
    pivotRow := none, pivotCol := none }

/-- Loop of `findPivotColumn`: running minimum (initially `0`) of the
objective-row entries, keeping the first strict improvement. -/
def fpcGo : List ℚ → ℕ → ℚ → Option ℕ → Option ℕ
  | [], _, _, best => best
  | x :: xs, j, minV, best =>
    if x < minV then fpcGo xs (j + 1) x (some j) else fpcGo xs (j + 1) minV best

/-- `findPivotColumn` (`-1` becomes `none`). -/
def findPivotColumn (t : SimplexTableau) : Option ℕ :=
  fpcGo ((t.table.getD (t.table.length - 1) []).dropLast) 0 0 none

/-- Loop of `findPivotRow`: minimum-ratio test over constraint rows with a
strictly positive entry in the pivot column; `ratio < minRatio` keeps the
first minimiser (the initial `minRatio = +∞` is modelled by starting from
`none`, which any finite ratio beats). -/
def fprGo : List (List ℚ) → ℕ → ℕ → Option (ℕ × ℚ) → Option (ℕ × ℚ)
  | [], _, _, best => best
  | row :: rest, c, i, best =>
    let e := row.getD c 0
    if 0 < e then
      let ratio := (row.getD (row.length - 1) 0) / e
      match best with
      | none => fprGo rest c (i + 1) (some (i, ratio))
      | some (bi, br) =>
        if ratio < br then fprGo rest c (i + 1) (some (i, ratio))
        else fprGo rest c (i + 1) (some (bi, br))
    else fprGo rest c (i + 1) best

/-- `findPivotRow` (`-1` becomes `none`). -/
def findPivotRow (t : SimplexTableau) (c : ℕ) : Option ℕ :=
  (fprGo t.table.dropLast c 0 none).map Prod.fst

/-- The entering variable as computed by `pivot`:
`tableau.nonBasicVariables[pivotCol] || x${pivotCol+1}` (a missing or empty
entry is falsy and takes the fallback). -/
def enteringName (t : SimplexTableau) (c : ℕ) : String :=
  match t.nonBasicVariables.get? c with
  | some v => if v = ("") then ("x") ++ decStr (c + 1) else v
  | none => ("x") ++ decStr (c + 1)

/-- `pivot`: normalize the pivot row, eliminate the pivot column from every
other row (the eliminating multiplier is each row's original entry in the
pivot column), and update the basic/non-basic bookkeeping. The returned
snapshot has `pivotRow`/`pivotCol` unset, as in the source. -/
def pivot (t : SimplexTableau) (r c it : ℕ) : SimplexTableau :=
  let pRow := t.table.getD r []
  let p := pRow.getD c 0
  let norm := pRow.map (fun x => x / p)
  let newTable := mapWithIndex (fun i row =>
      if i = r then norm
      else mapWithIndex (fun j x => x - (row.getD c 0) * norm.getD j 0) 0 row) 0 t.table
  let entering := enteringName t c
  let newBasic := t.basicVariables.set r entering
  let leaving := t.basicVariables.getD r ("")
  let newNonBasic :=
    match idxOfGo entering t.nonBasicVariables 0 with
    | some idx => t.nonBasicVariables.set idx leaving
    | none => t.nonBasicVariables
  let objRow := newTable.getD (newTable.length - 1) []
  { table := newTable, basicVariables := newBasic, nonBasicVariables := newNonBasic,
    objectiveRow := objRow,
    rhs := newTable.map (fun row => row.getD (row.length - 1) 0),
    iteration := it, isOptimal := checkOptimality objRow,
    pivotRow := none, pivotCol := none }

/-- The in-place `tableau.pivotRow = …; tableau.pivotCol = …` assignments that
`solve` performs on the most recently recorded snapshot before pivoting. -/
def recordPivot (t : SimplexTableau) (r c : ℕ) : SimplexTableau :=
  { t with pivotRow := some r, pivotCol := some c }

/-- First-occurrence update of an association list, mirroring object key
assignment in `extractSolution`. -/
def setVal : List (String × ℚ) → String → ℚ → List (String × ℚ)
  | [], _, _ => []
  | (n, v) :: rest, name, val =>
    if n = name then (n, val) :: rest else (n, v) :: setVal rest name val

/-- The basic-variable loop of `extractSolution`. -/
def extractVarsGo (sf : StandardForm) (rhs : List ℚ) :
    List String → ℕ → List (String × ℚ) → List (String × ℚ)
  | [], _, acc => acc
  | b :: rest, i, acc =>
    let acc' := if sf.vars.contains b then setVal acc b (max 0 (rhs.getD i 0)) else acc
    extractVarsGo sf rhs rest (i + 1) acc'

def extractVars (sf : StandardForm) (t : SimplexTableau) : List (String × ℚ) :=
  extractVarsGo sf t.rhs t.basicVariables 0 (sf.vars.map (fun v => (v, (0 : ℚ))))

/-- Objective value of `extractSolution`:
`table[table.length-1][table[0].length-1]`, negated for an originally
minimizing problem. -/
def extractObjectiveValue (sf : StandardForm) (t : SimplexTableau) : ℚ :=
  let ov := (t.table.getD (t.table.length - 1) []).getD ((t.table.getD 0 []).length - 1) 0
  if sf.originalType = ("minimize") then -ov else ov

/-- The normal (non-unbounded) return of `solve`. -/
def finishSolve (sf : StandardForm) (t : SimplexTableau) (acc : List SimplexTableau) : SolveOut :=
  { isOptimal := t.isOptimal, isFeasible := true, isUnbounded := false,
    optimalValue := XVal.fin (extractObjectiveValue sf t),
    vars := extractVars sf t,
    tableaus := acc, finalTableau := t }

/-- The `while (!tableau.isOptimal && iteration < maxIterations)` loop of
`solve`; `fuel` is the number of remaining iterations. Recording a pivot
replaces the last element of the snapshot list, since the source mutates the
snapshot object it had already stored there. -/
def solveLoop (sf : StandardForm) : ℕ → SimplexTableau → List SimplexTableau → ℕ → SolveOut
  | 0, tab, acc, _ => finishSolve sf tab acc
  | fuel' + 1, tab, acc, iter =>
    if tab.isOptimal then finishSolve sf tab acc
    else
      match findPivotColumn tab with
      | none =>
        let tab' := { tab with isOptimal := true }
        finishSolve sf tab' (acc.dropLast ++ [tab'])
      | some c =>
        match findPivotRow tab c with
        | none =>
          { isOptimal := false, isFeasible := true, isUnbounded := true,
            optimalValue := if sf.type = ("maximize") then XVal.posInf else XVal.negInf,
            vars := [], tableaus := acc, finalTableau := tab }
        | some r =>
          let tabR := recordPivot tab r c
          let newTab := pivot tabR r c (iter + 1)
          solveLoop sf fuel' newTab (acc.dropLast ++ [tabR, newTab]) (iter + 1)

def solve (p : LPProblem) : SolveOut :=
  let sf := convertToStandardForm p
  let t0 := initializeTableau sf
  solveLoop sf 100 t0 [t0] 0

end SimplexSolver

/-! ## Sensitivity analyzer -/

def XVal.ltQ : XVal → ℚ → Bool
  | XVal.fin x, q => decide (x < q)
  | XVal.posInf, _ => false
  | XVal.negInf, _ => true

def XVal.ltV : XVal → XVal → Bool
  | XVal.fin x, XVal.fin y => decide (x < y)
  | XVal.fin _, XVal.posInf => true
  | XVal.fin _, XVal.negInf => false
  | XVal.posInf, _ => false
  | XVal.negInf, XVal.negInf => false
  | XVal.negInf, _ => true

/-- `Math.min` on extended values. -/
def XVal.minV (a b : XVal) : XVal := if XVal.ltV a b then a else b

structure ShadowPrice where
  constraint : String
  shadowPrice : ℚ
  allowableIncrease : XVal
  allowableDecrease : XVal
deriving DecidableEq

/-- `ObjectiveCoefficient`; the source field `variable` is a reserved word in
Lean and is called `varName` here. -/
structure ObjectiveCoefficient where
  varName : String
  currentValue : ℚ
  allowableIncrease : XVal
  allowableDecrease : XVal
  reducedCost : ℚ
deriving DecidableEq

structure RHSRange where
  constraint : String
  currentValue : ℚ
  allowableIncrease : XVal
  allowableDecrease : XVal
  shadowPrice : ℚ
deriving DecidableEq

structure BasisStability where
  isStable : Bool
  criticalRanges : List String
deriving DecidableEq

structure SensSummary where
  mostSensitiveVariable : String
  mostConstrainingResource : String
  totalSlack : ℚ
deriving DecidableEq

structure SensitivityAnalysis where
  isValid : Bool
  shadowPrices : List ShadowPrice
  objectiveCoefficients : List ObjectiveCoefficient
  rhsRanges : List RHSRange
  optimalBasisStability : BasisStability
  recommendations : List String
  summary : SensSummary
deriving DecidableEq

/-- The part of a `SimplexSolution` value that `analyze` reads; `finalTableau`
is `none` when the field is absent (falsy). -/
structure AnalyzeInput where
  isOptimal : Bool
  finalTableau : Option SimplexTableau
deriving DecidableEq

def toAnalyzeInput (s : SolveOut) : AnalyzeInput := ⟨s.isOptimal, some s.finalTableau⟩

namespace SensitivityAnalyzer

/-- `Math.random() * 10 + 5`, with the draw `u` made explicit. -/
def calculateAllowableIncrease (u : ℚ) : ℚ := u * 10 + 5

/-- `Math.random() * 5 + 2`. -/
def calculateAllowableDecrease (u : ℚ) : ℚ := u * 5 + 2

/-- `Math.random() * 8 + 3`. -/
def calculateObjectiveIncrease (u : ℚ) : ℚ := u * 8 + 3

/-- `Math.random() * 6 + 2`. -/
def calculateObjectiveDecrease (u : ℚ) : ℚ := u * 6 + 2

/-- `Math.random() * 12 + 4`. -/
def calculateRHSIncrease (u : ℚ) : ℚ := u * 12 + 4

/-- `Math.random() * 8 + 2`. -/
def calculateRHSDecrease (u : ℚ) : ℚ := u * 8 + 2

/-- Loop of `calculateShadowPrices`; `k` counts the `Math.random()` draws made
so far. The shadow price of constraint `i` is read from objective-row column
`variables.length + i`. -/
def shadowPricesGo (rand : ℕ → ℚ) (objRow : List ℚ) (numVars : ℕ) :
    List LPConstraint → ℕ → ℕ → List ShadowPrice × ℕ
  | [], _, k => ([], k)
  | con :: rest, i, k =>
    let idx := numVars + i
    let sp := if idx < objRow.length then |objRow.getD idx 0| else 0
    let incDec : XVal × XVal × ℕ :=
      if 0 < sp then
        (XVal.fin (calculateAllowableIncrease (rand k)),
         XVal.fin (calculateAllowableDecrease (rand (k + 1))), k + 2)
      else (XVal.posInf, XVal.fin 0, k)
    let name := if con.expression = ("") then ("Restricción ") ++ decStr (i + 1)
                else con.expression
    let tail := shadowPricesGo rand objRow numVars rest (i + 1) incDec.2.2
    (⟨name, sp, incDec.1, incDec.2.1⟩ :: tail.1, tail.2)

/-- Loop of `calculateObjectiveRanges` (including `calculateReducedCost`). -/
def objectiveRangesGo (rand : ℕ → ℚ) (ft : SimplexTableau) (prob : LPProblem) :
    List String → ℕ → ℕ → List ObjectiveCoefficient × ℕ
  | [], _, k => ([], k)
  | v :: rest, i, k =>
    let currentValue := prob.objective.coefficients.getD i 0
    let rc : ℚ := if ft.basicVariables.contains v then 0 else ft.objectiveRow.getD i 0
    let incDec : XVal × XVal × ℕ :=
      if rc = 0 then
        (XVal.fin (calculateObjectiveIncrease (rand k)),
         XVal.fin (calculateObjectiveDecrease (rand (k + 1))), k + 2)
      else (XVal.posInf, XVal.posInf, k)
    let tail := objectiveRangesGo rand ft prob rest (i + 1) incDec.2.2
    (⟨v, currentValue, incDec.1, incDec.2.1, rc⟩ :: tail.1, tail.2)

/-- Loop of `calculateRHSRanges`. -/
def rhsRangesGo (rand : ℕ → ℚ) (sps : List ShadowPrice) :
    List LPConstraint → ℕ → ℕ → List RHSRange × ℕ
  | [], _, k => ([], k)
  | con :: rest, i, k =>
    let sp := match sps.get? i with | some s => s.shadowPrice | none => 0
    let inc := XVal.fin (calculateRHSIncrease (rand k))
    let dcr := XVal.fin (calculateRHSDecrease (rand (k + 1)))
    let name := if con.expression = ("") then ("Restricción ") ++ decStr (i + 1)
                else con.expression
    let tail := rhsRangesGo rand sps rest (i + 1) (k + 2)
    (⟨name, con.rhs, inc, dcr, sp⟩ :: tail.1, tail.2)

def analyzeBasisStability (ocs : List ObjectiveCoefficient) (rrs : List RHSRange) :
    BasisStability :=
  let critical :=
    (ocs.filterMap (fun oc =>
      if oc.allowableIncrease.ltQ 1 || oc.allowableDecrease.ltQ 1 then
        some (oc.varName ++ (": rango crítico en coeficientes objetivo")) else none)) ++
    (rrs.filterMap (fun r =>
      if r.allowableIncrease.ltQ 1 || r.allowableDecrease.ltQ 1 then
        some (r.constraint ++ (": rango crítico en lado derecho")) else none))
  ⟨critical.isEmpty, critical⟩

/-- Stable insertion used to model the stable `Array.prototype.sort` with
comparator `(a, b) => b.shadowPrice - a.shadowPrice` (descending, ties in
original order); elements are inserted left to right. -/
def insertDescBySP (x : ShadowPrice) : List ShadowPrice → List ShadowPrice
  | [] => [x]
  | y :: ys => if y.shadowPrice < x.shadowPrice then x :: y :: ys
               else y :: insertDescBySP x ys

/-- `generateRecommendations` (text templates kept, numeric interpolation
elided; the `rhsRanges` argument is unused in the source as well). -/
def generateRecommendations (sps : List ShadowPrice) (ocs : List ObjectiveCoefficient)
    (_rrs : List RHSRange) : List String :=
  let highs := (sps.filter (fun s => decide (0 < s.shadowPrice))).foldl
    (fun acc x => insertDescBySP x acc) []
  let r1 := match highs with
    | [] => []
    | h :: _ =>
      [("Considere aumentar el recurso ") ++ h.constraint ++
       (" ya que tiene el mayor precio sombra")]
  let nonBasic := ocs.filter (fun oc => decide (oc.reducedCost ≠ 0))
  let r2 := match nonBasic with
    | [] => []
    | h :: t =>
      let best := t.foldl (fun prev curr =>
        if |prev.reducedCost| < |curr.reducedCost| then curr else prev) h
      [("La variable ") ++ best.varName ++ (" no está en la base y tiene costo reducido")]
  let tight := sps.filter (fun s => decide (0 < s.shadowPrice))
  let r3 := if tight.isEmpty then []
            else [decStr tight.length ++ (" restricción(es) están activas en la solución óptima")]
  r1 ++ r2 ++ r3

/-- `totalSlack` accumulation of `createSummary`: sum the `rhs` entries whose
basic variable starts with `s`. -/
def slackSumGo (basic : List String) : List ℚ → ℕ → ℚ
  | [], _ => 0
  | v :: rest, i =>
    (if (basic.getD i ("")).startsWith ("s") then v else 0) + slackSumGo basic rest (i + 1)

/-- `createSummary`. The source's `reduce(f, list[0])` folds the whole list
starting from its own head; since comparing the head with itself is a no-op,
this equals folding the tail from the head. -/
def createSummary (sps : List ShadowPrice) (ocs : List ObjectiveCoefficient)
    (ft : SimplexTableau) : SensSummary :=
  let mcr := match sps with
    | [] => ("")
    | h :: t => (t.foldl (fun prev curr =>
        if prev.shadowPrice < curr.shadowPrice then curr else prev) h).constraint
  let msv := match ocs with
    | [] => ("")
    | h :: t => (t.foldl (fun prev curr =>
        if XVal.ltV (XVal.minV curr.allowableIncrease curr.allowableDecrease)
                    (XVal.minV prev.allowableIncrease prev.allowableDecrease)
        then curr else prev) h).varName
  ⟨msv, mcr, slackSumGo ft.basicVariables ft.rhs 0⟩

/-- `SensitivityAnalyzer.analyze`. The guard mirrors
`!simplexSolution.isOptimal || !simplexSolution.finalTableau`. -/
def analyze (rand : ℕ → ℚ) (simplexSolution : AnalyzeInput)
    (originalProblem : LPProblem) : SensitivityAnalysis :=
  match simplexSolution.finalTableau, simplexSolution.isOptimal with
  | some ft, true =>
    let sps := shadowPricesGo rand ft.objectiveRow originalProblem.vars.length
      originalProblem.constraints 0 0
    let ocs := objectiveRangesGo rand ft originalProblem originalProblem.vars 0 sps.2
    let rrs := rhsRangesGo rand sps.1 originalProblem.constraints 0 ocs.2
    ⟨true, sps.1, ocs.1, rrs.1,
     analyzeBasisStability ocs.1 rrs.1,
     generateRecommendations sps.1 ocs.1 rrs.1,
     createSummary sps.1 ocs.1 ft⟩
  | _, _ =>
    ⟨false, [], [], [], ⟨false, []⟩,
     [("El análisis de sensibilidad requiere una solución óptima válida")],
     ⟨(""), (""), 0⟩⟩

end SensitivityAnalyzer

/-! ## Graphical solver -/

structure GPoint where
  x : ℚ
  y : ℚ
deriving DecidableEq

structure GLine where
  a : ℚ
  b : ℚ
  c : ℚ
  label : String
  isActive : Bool
deriving DecidableEq

structure GraphicalSolution where
  isValid : Bool
  isFeasible : Bool
  isUnbounded : Bool
  optimalPoint : Option GPoint
  optimalValue : XVal
  feasibleRegion : List GPoint
  constraintLines : List GLine
  objectiveLine : GLine
  cornerPoints : List GPoint
  errorMessage : Option String
deriving DecidableEq

namespace GraphicalSolver

/-- Numeric part of a constraint label (`${c}`); never inspected except for
the operator characters, which a number cannot contain. -/
def ratStr (q : ℚ) : String := toString q

def tol6 : ℚ := 1 / 1000000

/-- `convertConstraintsToLines` plus the two non-negativity lines. -/
def convertConstraintsToLines (constraints : List LPConstraint) : List GLine :=
  constraints.map (fun con =>
    { a := con.coefficients.getD 0 0, b := con.coefficients.getD 1 0, c := con.rhs,
      label := con.expression ++ (" ") ++ con.operator ++ (" ") ++ ratStr con.rhs,
      isActive := true })
  ++ [{ a := 1, b := 0, c := 0, label := ("x₁ ≥ 0"), isActive := true },
      { a := 0, b := 1, c := 0, label := ("x₂ ≥ 0"), isActive := true }]

/-- `createObjectiveLine` (label text elided). -/
def createObjectiveLine (objective : LPObjective) : GLine :=
  { a := objective.coefficients.getD 0 0, b := objective.coefficients.getD 1 0, c := 0,
    label := ("Z"), isActive := true }

/-- `isPointFeasible`: the operator is recognised by looking for its character
in the line's label, exactly as the source does with `label.includes`. -/
def isPointFeasible (p : GPoint) (lines : List GLine) : Bool :=
  lines.all (fun l =>
    let v := l.a * p.x + l.b * p.y
    if l.label.contains ('≤') then !(decide (l.c + tol10 < v))
    else if l.label.contains ('≥') then !(decide (v < l.c - tol10))
    else if l.label.contains ('=') then !(decide (tol10 < |v - l.c|))
    else true)

/-- The sampling grid of `findFeasibleRegion`:
`x = 0, 0.5, 1, …, 20` (the loop `for (x = 0; x <= 20; x += 0.5)`, exact in
binary floating point). -/
def gridCoords : List ℚ := (List.range 41).map (fun i => (i : ℚ) / 2)

/-- `findFeasibleRegion`: collect the feasible grid points, x-major. -/
def findFeasibleRegion (lines : List GLine) : List GPoint :=
  (gridCoords.map (fun x =>
    gridCoords.filterMap (fun y =>
      if isPointFeasible ⟨x, y⟩ lines then some (⟨x, y⟩ : GPoint) else none))).flatten

/-- `findLineIntersection` (Cramer's rule, `|det| < 1e-10` ⇒ parallel). -/
def findLineIntersection (l1 l2 : GLine) : Option GPoint :=
  let den := l1.a * l2.b - l2.a * l1.b
  if |den| < tol10 then none
  else some ⟨(l1.c * l2.b - l2.c * l1.b) / den, (l1.a * l2.c - l2.a * l1.c) / den⟩

/-- All pairs `(i, j)` with `i < j`, in the source's double-loop order. -/
def pairsGo : List GLine → List (GLine × GLine)
  | [] => []
  | l :: rest => rest.map (fun m => (l, m)) ++ pairsGo rest

/-- Accumulating loop of `findCornerPoints`: keep feasible intersections not
already present within `1e-6` per coordinate. -/
def cornerFold (lines : List GLine) : List (GLine × GLine) → List GPoint → List GPoint
  | [], acc => acc
  | (l1, l2) :: rest, acc =>
    match findLineIntersection l1 l2 with
    | some p =>
      if isPointFeasible p lines then
        if acc.any (fun q => decide (|q.x - p.x| < tol6) && decide (|q.y - p.y| < tol6)) then
          cornerFold lines rest acc
        else cornerFold lines rest (acc ++ [p])
      else cornerFold lines rest acc
    | none => cornerFold lines rest acc

def findCornerPoints (lines : List GLine) : List GPoint :=
  cornerFold lines (pairsGo lines) []

def evaluateObjective (p : GPoint) (objective : LPObjective) : ℚ :=
  (objective.coefficients.getD 0 0) * p.x + (objective.coefficients.getD 1 0) * p.y

/-- `findOptimalPoint`: first-found corner wins ties; an empty corner list is
reported as unbounded. -/
def findOptimalPoint (cornerPoints : List GPoint) (objective : LPObjective)
    (type : String) : Option GPoint × ℚ × Bool :=
  match cornerPoints with
  | [] => (none, 0, true)
  | h :: t =>
    let r := t.foldl (fun (acc : GPoint × ℚ) p =>
      let v := evaluateObjective p objective
      if type = ("maximize") && decide (acc.2 < v) then (p, v)
      else if type = ("minimize") && decide (v < acc.2) then (p, v)
      else acc) (h, evaluateObjective h objective)
    (some r.1, r.2, false)

/-- `GraphicalSolver.solve` (error-message interpolation elided). -/
def solve (problem : LPProblem) : GraphicalSolution :=
  if problem.vars.length ≠ 2 then
    { isValid := false, isFeasible := false, isUnbounded := false, optimalPoint := none,
      optimalValue := XVal.fin 0, feasibleRegion := [], constraintLines := [],
      objectiveLine := ⟨0, 0, 0, (""), false⟩, cornerPoints := [],
      errorMessage := some ("El método gráfico solo funciona con exactamente 2 variables") }
  else
    let constraintLines := convertConstraintsToLines problem.constraints
    let objectiveLine := createObjectiveLine problem.objective
    let feasibleRegion := findFeasibleRegion constraintLines
    if feasibleRegion.isEmpty then
      { isValid := true, isFeasible := false, isUnbounded := false, optimalPoint := none,
        optimalValue := XVal.fin 0, feasibleRegion := [], constraintLines := constraintLines,
        objectiveLine := objectiveLine, cornerPoints := [], errorMessage := none }
    else
      let cornerPoints := findCornerPoints constraintLines
      let r := findOptimalPoint cornerPoints problem.objective problem.type
      if r.2.2 then
        { isValid := true, isFeasible := true, isUnbounded := true, optimalPoint := none,
          optimalValue := if problem.type = ("maximize") then XVal.posInf else XVal.negInf,
          feasibleRegion := feasibleRegion, constraintLines := constraintLines,
          objectiveLine := objectiveLine, cornerPoints := cornerPoints, errorMessage := none }
      else
        { isValid := true, isFeasible := true, isUnbounded := false, optimalPoint := r.1,
          optimalValue := XVal.fin r.2.1, feasibleRegion := feasibleRegion,
          constraintLines := constraintLines, objectiveLine := objectiveLine,
          cornerPoints := cornerPoints, errorMessage := none }

end GraphicalSolver

/-! ## Concrete problems used in counterexamples and witnesses -/

/-- Scenario A: `maximize 3x1+2x2; x1+x2 ≤ 4; 2x1+x2 ≤ 6`. -/
def scnA : LPProblem :=
  { type := ("maximize"), objective := ⟨[3, 2]⟩,
    constraints :=
      [⟨[1, 1], ("≤"), 4, ("x1 + x2")⟩,
       ⟨[2, 1], ("≤"), 6, ("2x1 + x2")⟩],
    vars := [("x1"), ("x2")] }

/-- Scenario B: `minimize 2x1+3x2; x1+2x2 ≥ 6; 2x1+x2 ≥ 8`. -/
def scnB : LPProblem :=
  { type := ("minimize"), objective := ⟨[2, 3]⟩,
    constraints :=
      [⟨[1, 2], ("≥"), 6, ("x1 + 2x2")⟩,
       ⟨[2, 1], ("≥"), 8, ("2x1 + x2")⟩],
    vars := [("x1"), ("x2")] }

/-- Scenario C: `maximize x1+x2; x1-x2 ≤ 1` (unbounded). -/
def scnC : LPProblem :=
  { type := ("maximize"), objective := ⟨[1, 1]⟩,
    constraints := [⟨[1, -1], ("≤"), 1, ("x1 - x2")⟩],
    vars := [("x1"), ("x2")] }

/-- A mixed problem (one `≥`, one `≤` constraint):
`maximize 2x1+x2; x1 ≥ 1; x1+x2 ≤ 4`. -/
def pMix : LPProblem :=
  { type := ("maximize"), objective := ⟨[2, 1]⟩,
    constraints :=
      [⟨[1, 0], ("≥"), 1, ("x1")⟩,
       ⟨[1, 1], ("≤"), 4, ("x1 + x2")⟩],
    vars := [("x1"), ("x2")] }

/-- A two-variable problem whose only constraint `x1 ≥ 21` is satisfiable
(e.g. at `(21, 0)`), but not at any point of the sampling grid
`[0, 20] × [0, 20]`. -/
def pFar : LPProblem :=
  { type := ("maximize"), objective := ⟨[1, 1]⟩,
    constraints := [⟨[1, 0], ("≥"), 21, ("x1")⟩],
    vars := [("x1"), ("x2")] }

/-! ## Specification-side definitions used to state the claims -/

/-- All auxiliary variable names of a standard form, in assignment order
(per constraint: slack, surplus, artificial) — the names whose pairwise
distinctness the specification asserts. -/
def auxNames (sf : StandardForm) : List String :=
  sf.constraints.foldr
    (fun c acc => c.slackVar.toList ++ c.surplusVar.toList ++ c.artificialVar.toList ++ acc) []

/-- The variable owning each tableau column: the decision variables followed,
constraint by constraint, by the slack, surplus and artificial names — the
`allVariables` list built (and then discarded) by `initializeTableau`, in the
same order in which the tableau columns are laid out. -/
def columnVariables (sf : StandardForm) : List String := sf.vars ++ auxNames sf

/-- Number of tableau columns contributed by one standard-form constraint. -/
def auxCount (c : StdConstraint) : ℕ :=
  c.slackVar.toList.length + c.surplusVar.toList.length + c.artificialVar.toList.length

/-- Definition following the specification's words: the tableau column of
constraint `i`'s slack/surplus variable. It is the first auxiliary column
contributed by constraint `i` (a slack or surplus column is always laid out
before that constraint's artificial column). -/
def slackSurplusCol (sf : StandardForm) (i : ℕ) : ℕ :=
  sf.vars.length + ((sf.constraints.take i).map auxCount).sum

/-- Default tableau used with `List.getD`. -/
def emptyTableau : SimplexTableau :=
  { table := [], basicVariables := [], nonBasicVariables := [], objectiveRow := [],
    rhs := [], iteration := 0, isOptimal := false, pivotRow := none, pivotCol := none }

/-- The (reachable) tableau after the first pivot of `solve` on `pMix`:
the rule-selected first pivot is row 0, column 0. -/
def pMixTab1 : SimplexTableau :=
  SimplexSolver.pivot
    (SimplexSolver.initializeTableau (SimplexSolver.convertToStandardForm pMix)) 0 0 1

/-! ## Claim C1 -/

/-- C1: on Scenario B (`minimize 2x1+3x2; x1+2x2 ≥ 6; 2x1+x2 ≥ 8; x1,x2 ≥ 0`)
`SimplexSolver.solve` reports an *optimal* solution with value `0` at
`x1 = 0, x2 = 0` — not the claimed optimal value `10` at `(2, 2)`. With `≥`
constraints the artificial initial basis is treated as feasible (there is no
Phase I / Big-M), the initial objective row `[2, 3, 0, …]` already passes the
optimality test, and the infeasible point `(0, 0)` is returned. The
repository's own example `graphical-5` documents the expected solution `10`
at `(2, 2)` for this very problem. -/
theorem C1_scenarioB_solve_behavior :
    (SimplexSolver.solve scnB).isOptimal = true ∧
    (SimplexSolver.solve scnB).optimalValue = XVal.fin 0 ∧
    (SimplexSolver.solve scnB).vars = [(("x1"), 0), (("x2"), 0)] ∧
    XVal.fin 0 ≠ XVal.fin 10 := by with_unfolding_all decide

/-! ## Claim C2 -/

/-- C2: the sensitivity stage of the pipeline is *not* deterministic — its
output depends on the `Math.random()` draws. Running `analyze` on the same
optimal simplex solution of Scenario A with two different random streams
(constantly `0` versus constantly `1/2`) yields different sensitivity ranges,
so two runs of the full pipeline need not produce identical outputs. -/
theorem C2_sensitivity_depends_on_random_draws :
    SensitivityAnalyzer.analyze (fun _ => 0)
        (toAnalyzeInput (SimplexSolver.solve scnA)) scnA ≠
    SensitivityAnalyzer.analyze (fun _ => 1/2)
        (toAnalyzeInput (SimplexSolver.solve scnA)) scnA := by with_unfolding_all decide

/-! ## Claim C3, counterexample -/

/-- C3 counterexample: slack and surplus variables use the same prefix `s`
with *independent* counters, so for `pMix` (one `≥` constraint followed by one
`≤` constraint) the surplus variable of constraint 0 and the slack variable of
constraint 1 are both named `s1`: the auxiliary names are not pairwise
distinct. -/
theorem C3_counterexample_aux_name_collision :
    ¬ (auxNames (SimplexSolver.convertToStandardForm pMix)).Nodup ∧
    (SimplexSolver.convertToStandardForm pMix).constraints.map (fun c => c.surplusVar) =
      [some (("s1")), none] ∧
    (SimplexSolver.convertToStandardForm pMix).constraints.map (fun c => c.slackVar) =
      [none, some (("s1"))] := by with_unfolding_all decide

/-! ## Claim C4, counterexample -/

/-- C4 counterexample: at the reachable tableau `pMixTab1` the pivot rules
select position (row 1, column 2); column 2 is owned by the surplus variable
`s1`, but `pivot` writes the fabricated name `x3` into `basicVariables[1]`
(`nonBasicVariables[2]` is out of range, so the `x${pivotCol+1}` fallback
fires): the updated basic variable is *not* the variable owning the pivot
column. -/
theorem C4_counterexample_entering_variable :
    SimplexSolver.findPivotColumn pMixTab1 = some 2 ∧
    SimplexSolver.findPivotRow pMixTab1 2 = some 1 ∧
    (SimplexSolver.pivot pMixTab1 1 2 2).basicVariables.getD 1 ("") = ("x3") ∧
    (columnVariables (SimplexSolver.convertToStandardForm pMix)).getD 2 ("") = ("s1") ∧
    (("x3") : String) ≠ ("s1") := by with_unfolding_all decide

/-! ## Claim C6, counterexample -/

/-- C6 counterexample: on Scenario A the first recorded snapshot is created by
`initializeTableau` with `pivotRow = pivotCol = none`, but after `solve`
returns, that same recorded snapshot carries `pivotRow = some 1`,
`pivotCol = some 0` (its matrix is untouched): `solve` mutates the already
recorded snapshot in place before pivoting, so snapshots are not left
unchanged after creation. -/
theorem C6_counterexample_snapshot_mutated :
    ((SimplexSolver.solve scnA).tableaus.getD 0 emptyTableau).pivotRow = some 1 ∧
    ((SimplexSolver.solve scnA).tableaus.getD 0 emptyTableau).pivotCol = some 0 ∧
    (SimplexSolver.initializeTableau (SimplexSolver.convertToStandardForm scnA)).pivotRow
      = none ∧
    (SimplexSolver.initializeTableau (SimplexSolver.convertToStandardForm scnA)).pivotCol
      = none ∧
    ((SimplexSolver.solve scnA).tableaus.getD 0 emptyTableau).table =
      (SimplexSolver.initializeTableau (SimplexSolver.convertToStandardForm scnA)).table := by
  with_unfolding_all decide

/-! ## Claim C8, counterexample -/

/-- C8 counterexample: on the optimally solved `pMix`, the analyzer reads the
shadow price of constraint 1 from objective-row column
`variables.length + 1 = 3` (an artificial column, value 0), while the column
of constraint 1's slack variable is `slackSurplusCol … 1 = 4`, whose
objective-row coefficient has absolute value 2: the reported shadow price (0)
differs from the claimed value (2). -/
theorem C8_counterexample_shadow_price_column :
    (SimplexSolver.solve pMix).isOptimal = true ∧
    ((SensitivityAnalyzer.analyze (fun _ => 0)
        (toAnalyzeInput (SimplexSolver.solve pMix)) pMix).shadowPrices.map
          (fun s => s.shadowPrice)).getD 1 99 = 0 ∧
    slackSurplusCol (SimplexSolver.convertToStandardForm pMix) 1 = 4 ∧
    |(SimplexSolver.solve pMix).finalTableau.objectiveRow.getD 4 0| = 2 ∧
    (0 : ℚ) ≠ 2 := by with_unfolding_all decide

/-! ## List helper lemmas -/

theorem mapWithIndex_length (f : ℕ → α → β) :
    ∀ (k : ℕ) (l : List α), (mapWithIndex f k l).length = l.length := by
  intro k l
  induction l generalizing k with
  | nil => rfl
  | cons x xs ih => simp [mapWithIndex, ih]

theorem mapWithIndex_getD (f : ℕ → α → β) :
    ∀ (l : List α) (k j : ℕ) (d : β) (d' : α), j < l.length →
      (mapWithIndex f k l).getD j d = f (k + j) (l.getD j d') := by
  intro l
  induction l with
  | nil => intro k j d d' h; simp at h
  | cons x xs ih =>
    intro k j d d' h
    cases j with
    | zero => simp [mapWithIndex]
    | succ j' =>
      have hj : j' < xs.length := by simpa using h
      simp only [mapWithIndex, List.getD_cons_succ]
      rw [ih (k + 1) j' d d' hj]
      ring_nf

theorem map_getD (f : α → β) (l : List α) (j : ℕ) (d : β) (d' : α) (h : j < l.length) :
    (l.map f).getD j d = f (l.getD j d') := by
  induction l generalizing j with
  | nil => simp at h
  | cons x xs ih =>
    cases j with
    | zero => simp
    | succ j' => simpa using ih j' (by simpa using h)

theorem getD_append_left (l1 l2 : List α) (k : ℕ) (d : α) (h : k < l1.length) :
    (l1 ++ l2).getD k d = l1.getD k d := by
  simp [List.getD_eq_getElem?_getD, List.getElem?_append_left h]

theorem getD_dropLast (l : List α) (k : ℕ) (d : α) (h : k < l.length - 1) :
    l.dropLast.getD k d = l.getD k d := by
  have h1 : k < l.dropLast.length := by simpa using h
  have h2 : k < l.length := by omega
  simp [List.getD_eq_getElem?_getD, List.getElem?_eq_getElem h1,
    List.getElem?_eq_getElem h2, List.getElem_dropLast]

theorem getD_mem (l : List α) (k : ℕ) (d : α) (h : k < l.length) : l.getD k d ∈ l := by
  rw [List.getD_eq_getElem?_getD, List.getElem?_eq_getElem h]
  exact List.getElem_mem h

/-! ## Claim C9 -/

/-- C9: whenever the simplex solution is not optimal or carries no final
tableau, `analyze` returns the unavailable result: `isValid = false`, empty
shadow-price / objective-coefficient / RHS-range lists, an unstable empty
stability record, an empty summary, and only the explanatory message — no
numeric sensitivity values. -/
theorem C9_analyze_guard (rand : ℕ → ℚ) (sol : AnalyzeInput) (prob : LPProblem)
    (h : sol.isOptimal = false ∨ sol.finalTableau = none) :
    SensitivityAnalyzer.analyze rand sol prob =
      ⟨false, [], [], [], ⟨false, []⟩,
       [("El análisis de sensibilidad requiere una solución óptima válida")],
       ⟨(""), (""), 0⟩⟩ := by
  obtain ⟨opt, ft⟩ := sol
  simp only at h
  rcases h with h | h
  · subst h; cases ft <;> rfl
  · subst h; cases opt <;> rfl

/-- Witness for C9 at a concrete non-optimal input. -/
theorem C9_analyze_guard_witness :
    SensitivityAnalyzer.analyze (fun _ => 0) ⟨false, none⟩ scnB =
      ⟨false, [], [], [], ⟨false, []⟩,
       [("El análisis de sensibilidad requiere una solución óptima válida")],
       ⟨(""), (""), 0⟩⟩ :=
  C9_analyze_guard (fun _ => 0) ⟨false, none⟩ scnB (Or.inl rfl)

/-! ## Claim C5 -/

/-- C5: after `pivot` at a valid position with nonzero pivot element, the
pivot column is a unit vector within tolerance `1e-9`: entry 1 at the pivot
row and 0 in every other row, the objective row included (the model computes
in exact rational arithmetic, where the entries are exactly 1 and 0). -/
theorem C5_pivot_unit_column (t : SimplexTableau) (r c it : ℕ)
    (hr : r < t.table.length)
    (hc : ∀ row ∈ t.table, c < row.length)
    (hp : (t.table.getD r []).getD c 0 ≠ 0) :
    |((SimplexSolver.pivot t r c it).table.getD r []).getD c 0 - 1| ≤ tol9 ∧
    ∀ i, i < t.table.length → i ≠ r →
      |((SimplexSolver.pivot t r c it).table.getD i []).getD c 0| ≤ tol9 := by
  have hcr : c < (t.table.getD r []).length := hc _ (getD_mem _ _ _ hr)
  have hnorm : ((t.table.getD r []).map
      (fun x => x / (t.table.getD r []).getD c 0)).getD c 0 = 1 := by
    rw [map_getD _ _ c 0 0 hcr, div_self hp]
  constructor
  · simp only [SimplexSolver.pivot]
    rw [mapWithIndex_getD _ _ 0 r [] [] hr]
    simp only [Nat.zero_add, if_true]
    rw [hnorm]
    simp [tol9]
  · intro i hi hir
    have hci : c < (t.table.getD i []).length := hc _ (getD_mem _ _ _ hi)
    simp only [SimplexSolver.pivot]
    rw [mapWithIndex_getD _ _ 0 i [] [] hi]
    simp only [Nat.zero_add, if_neg hir]
    rw [mapWithIndex_getD _ _ 0 c 0 0 hci]
    simp only [Nat.zero_add]
    rw [hnorm]
    simp [tol9]

/-- Witness for C5: pivoting Scenario A's initial tableau at (1, 0) (the
position the pivot rules select) yields entry 1 at the pivot row and 0 at the
other two rows of column 0. -/
theorem C5_pivot_unit_column_witness :
    |((SimplexSolver.pivot
        (SimplexSolver.initializeTableau (SimplexSolver.convertToStandardForm scnA))
        1 0 1).table.getD 1 []).getD 0 0 - 1| ≤ tol9 ∧
    |((SimplexSolver.pivot
        (SimplexSolver.initializeTableau (SimplexSolver.convertToStandardForm scnA))
        1 0 1).table.getD 0 []).getD 0 0| ≤ tol9 ∧
    |((SimplexSolver.pivot
        (SimplexSolver.initializeTableau (SimplexSolver.convertToStandardForm scnA))
        1 0 1).table.getD 2 []).getD 0 0| ≤ tol9 :=
  ⟨(C5_pivot_unit_column _ 1 0 1 (by with_unfolding_all decide)
      (by with_unfolding_all decide) (by with_unfolding_all decide)).1,
   (C5_pivot_unit_column _ 1 0 1 (by with_unfolding_all decide)
      (by with_unfolding_all decide) (by with_unfolding_all decide)).2 0
      (by with_unfolding_all decide) (by with_unfolding_all decide),
   (C5_pivot_unit_column _ 1 0 1 (by with_unfolding_all decide)
      (by with_unfolding_all decide) (by with_unfolding_all decide)).2 2
      (by with_unfolding_all decide) (by with_unfolding_all decide)⟩

/-! ## Claim C10 -/

/-- C10: `GraphicalSolver.solve` decides feasibility purely from the finite
sampling grid `{0, 0.5, …, 20}²`. For every 2-variable problem in which no
grid point passes the solver's constraint test, it reports
`isFeasible = false` with no corner points and no optimal point — regardless
of whether feasible points exist outside the `[0,20]` box or off the grid. -/
theorem C10_grid_infeasible (p : LPProblem) (h2 : p.vars.length = 2)
    (hg : ∀ x ∈ GraphicalSolver.gridCoords, ∀ y ∈ GraphicalSolver.gridCoords,
      GraphicalSolver.isPointFeasible ⟨x, y⟩
        (GraphicalSolver.convertConstraintsToLines p.constraints) = false) :
    (GraphicalSolver.solve p).isValid = true ∧
    (GraphicalSolver.solve p).isFeasible = false ∧
    (GraphicalSolver.solve p).cornerPoints = [] ∧
    (GraphicalSolver.solve p).optimalPoint = none := by
  have hfr : GraphicalSolver.findFeasibleRegion
      (GraphicalSolver.convertConstraintsToLines p.constraints) = [] := by
    unfold GraphicalSolver.findFeasibleRegion
    rw [List.flatten_eq_nil_iff]
    intro l hl
    rw [List.mem_map] at hl
    obtain ⟨x, hx, rfl⟩ := hl
    rw [List.filterMap_eq_nil_iff]
    intro y hy
    rw [hg x hx y hy]
    rfl
  unfold GraphicalSolver.solve
  rw [if_neg (by omega : ¬ p.vars.length ≠ 2)]
  simp only [hfr, List.isEmpty_nil, if_true]
  exact ⟨trivial, trivial, trivial, trivial⟩

/-- Witness for C10: the problem `pFar` (`x1 ≥ 21`) has feasible points
(e.g. `(21, 0)`) but none on the grid, and the solver reports it
infeasible. -/
theorem C10_grid_infeasible_witness :
    (GraphicalSolver.solve pFar).isValid = true ∧
    (GraphicalSolver.solve pFar).isFeasible = false ∧
    (GraphicalSolver.solve pFar).cornerPoints = [] ∧
    (GraphicalSolver.solve pFar).optimalPoint = none :=
  C10_grid_infeasible pFar (by rfl) (by with_unfolding_all decide)

/-! ## Claim C4, amended -/

theorem getD_set_self : ∀ (l : List α) (r : ℕ) (v d : α), r < l.length →
    (l.set r v).getD r d = v := by
  intro l
  induction l with
  | nil => intro r v d h; simp at h
  | cons x xs ih =>
    intro r v d h
    cases r with
    | zero => rfl
    | succ r' => simpa using ih r' v d (by simpa using h)

theorem foldl_erase_append : ∀ (bs l1 l2 : List String),
    (∀ b ∈ bs, b ∉ l1) →
    bs.foldl (fun l b => l.erase b) (l1 ++ l2) =
      l1 ++ bs.foldl (fun l b => l.erase b) l2 := by
  intro bs
  induction bs with
  | nil => intro l1 l2 _; rfl
  | cons b rest ih =>
    intro l1 l2 h
    simp only [List.foldl_cons]
    rw [List.erase_append_right _ (h b (by simp))]
    exact ih l1 (l2.erase b) (fun x hx => h x (by simp [hx]))

/-- `pivot` writes `enteringName` (the source's
`nonBasicVariables[pivotCol] || x${pivotCol+1}`) into `basicVariables[row]`. -/
theorem pivot_basic_getD (t : SimplexTableau) (r c it : ℕ)
    (hr : r < t.basicVariables.length) :
    (SimplexSolver.pivot t r c it).basicVariables.getD r ("") =
      SimplexSolver.enteringName t c := by
  simp only [SimplexSolver.pivot]
  exact getD_set_self _ _ _ _ hr

/-- C4 (amended): `pivot` sets `basicVariables[row]` to
`nonBasicVariables[column]` (with the fallback name `x{column+1}` when that
entry is missing or empty) — not, in general, to the variable owning the
pivot column. The two agree when the non-basic list is aligned with the
column, e.g. for a decision-variable column of the freshly initialized tableau
(second conjunct, assuming the basic names do not collide with decision
names and no decision name is empty). -/
theorem C4_pivot_basic_update :
    (∀ (t : SimplexTableau) (r c it : ℕ), r < t.basicVariables.length →
      (SimplexSolver.pivot t r c it).basicVariables.getD r ("") =
        SimplexSolver.enteringName t c) ∧
    (∀ (sf : StandardForm) (r c it : ℕ),
      (∀ b ∈ (SimplexSolver.initializeTableau sf).basicVariables, b ∉ sf.vars) →
      ("") ∉ sf.vars →
      c < sf.vars.length →
      r < (SimplexSolver.initializeTableau sf).basicVariables.length →
      (SimplexSolver.pivot (SimplexSolver.initializeTableau sf) r c it).basicVariables.getD r ("") = (columnVariables sf).getD c ("")) := by
  refine ⟨pivot_basic_getD, ?_⟩
  intro sf r c it hb hem hc hr
  rw [pivot_basic_getD _ _ _ _ hr]
  have hnb : (SimplexSolver.initializeTableau sf).nonBasicVariables =
      sf.vars ++ ((SimplexSolver.initializeTableau sf).basicVariables.foldl
        (fun l b => l.erase b)
        (SimplexSolver.nonBasicPushes
          ((SimplexSolver.initializeTableau sf).basicVariables) sf.constraints)) := by
    simp only [SimplexSolver.initializeTableau] at hb ⊢
    exact foldl_erase_append _ _ _ hb
  have hv : (SimplexSolver.initializeTableau sf).nonBasicVariables.get? c =
      some (sf.vars.getD c ("")) := by
    rw [hnb, List.get?_eq_getElem?, List.getElem?_append_left hc,
      List.getElem?_eq_getElem hc]
    simp [List.getD_eq_getElem?_getD, List.getElem?_eq_getElem hc]
  have hmem : sf.vars.getD c ("") ∈ sf.vars := getD_mem _ _ _ hc
  have hne : sf.vars.getD c ("") ≠ ("") := fun h => hem (h ▸ hmem)
  rw [SimplexSolver.enteringName, hv]
  simp only [if_neg hne]
  rw [columnVariables, getD_append_left _ _ _ _ hc]

/-- Witness for C4: on Scenario A's initial tableau, pivoting at (1, 0) makes
`x1` (the owner of column 0) basic in row 1; and on `pMixTab1` the first
conjunct applies at the rule-selected position (1, 2). -/
theorem C4_pivot_basic_update_witness :
    (SimplexSolver.pivot
        (SimplexSolver.initializeTableau (SimplexSolver.convertToStandardForm scnA))
        1 0 1).basicVariables.getD 1 ("")
      = (columnVariables (SimplexSolver.convertToStandardForm scnA)).getD 0 ("") ∧
    (SimplexSolver.pivot pMixTab1 1 2 2).basicVariables.getD 1 ("") =
      SimplexSolver.enteringName pMixTab1 2 :=
  ⟨C4_pivot_basic_update.2 (SimplexSolver.convertToStandardForm scnA) 1 0 1
      (by with_unfolding_all decide)
      (by with_unfolding_all decide) (by with_unfolding_all decide)
      (by with_unfolding_all decide),
   C4_pivot_basic_update.1 pMixTab1 1 2 2 (by with_unfolding_all decide)⟩

/-! ## Claim C6, amended -/

theorem getD_append_off (l1 l2 : List α) (j : ℕ) (d : α) :
    (l1 ++ l2).getD (l1.length + j) d = l2.getD j d := by
  induction l1 with
  | nil => simp
  | cons x xs ih => simpa [Nat.succ_add] using ih

/-- Every snapshot recorded before the final one in `solveLoop`'s list carries
`pivotRow ≠ none` and `pivotCol ≠ none` after the loop returns. -/
theorem solveLoop_recorded (sf : StandardForm) : ∀ (fuel : ℕ) (tab : SimplexTableau)
    (acc : List SimplexTableau) (iter : ℕ),
    (∀ k, k + 1 < acc.length →
      (acc.getD k emptyTableau).pivotRow ≠ none ∧
      (acc.getD k emptyTableau).pivotCol ≠ none) →
    ∀ k, k + 1 < (SimplexSolver.solveLoop sf fuel tab acc iter).tableaus.length →
      ((SimplexSolver.solveLoop sf fuel tab acc iter).tableaus.getD k
        emptyTableau).pivotRow ≠ none ∧
      ((SimplexSolver.solveLoop sf fuel tab acc iter).tableaus.getD k
        emptyTableau).pivotCol ≠ none := by
  intro fuel
  induction fuel with
  | zero =>
    intro tab acc iter hinv k hk
    simp only [SimplexSolver.solveLoop, SimplexSolver.finishSolve] at hk ⊢
    exact hinv k hk
  | succ f ih =>
    intro tab acc iter hinv k hk
    cases hopt : tab.isOptimal with
    | true =>
      simp only [SimplexSolver.solveLoop, hopt, if_true, SimplexSolver.finishSolve] at hk ⊢
      exact hinv k hk
    | false =>
      cases hc : SimplexSolver.findPivotColumn tab with
      | none =>
        simp only [SimplexSolver.solveLoop, hopt, Bool.false_eq_true, if_false, hc,
          SimplexSolver.finishSolve] at hk ⊢
        have hk1 : k < acc.dropLast.length := by
          simp only [List.length_append, List.length_cons, List.length_nil] at hk
          omega
        rw [getD_append_left _ _ _ _ hk1, getD_dropLast _ _ _ (by simpa using hk1)]
        refine hinv k ?_
        simp only [List.length_dropLast] at hk1
        omega
      | some c =>
        cases hr : SimplexSolver.findPivotRow tab c with
        | none =>
          simp only [SimplexSolver.solveLoop, hopt, Bool.false_eq_true, if_false, hc,
            hr] at hk ⊢
          exact hinv k hk
        | some r =>
          simp only [SimplexSolver.solveLoop, hopt, Bool.false_eq_true, if_false, hc,
            hr] at hk ⊢
          refine ih _ _ _ ?_ k hk
          intro k' hk'
          simp only [List.length_append, List.length_cons, List.length_nil] at hk'
          rcases Nat.lt_or_ge k' acc.dropLast.length with hlt | hge
          · rw [getD_append_left _ _ _ _ hlt, getD_dropLast _ _ _ (by simpa using hlt)]
            refine hinv k' ?_
            simp only [List.length_dropLast] at hlt
            omega
          · have hk0 : k' = acc.dropLast.length := by omega
            subst hk0
            have h0 : acc.dropLast.length = acc.dropLast.length + 0 := by omega
            rw [h0, getD_append_off]
            exact ⟨by simp [SimplexSolver.recordPivot], by simp [SimplexSolver.recordPivot]⟩

/-- C6 (amended): a snapshot as created — by `initializeTableau` or by
`pivot` — has `pivotRow = pivotCol = none`; the in-place recording step
changes only those two fields (matrix, basic variables and optimality flag
are untouched); and after `solve` returns, every recorded snapshot except the
final one has been mutated in place to carry the pivot position chosen from
it (`pivotRow ≠ none`, `pivotCol ≠ none`). -/
theorem C6_snapshot_fields :
    (∀ sf : StandardForm, (SimplexSolver.initializeTableau sf).pivotRow = none ∧
      (SimplexSolver.initializeTableau sf).pivotCol = none) ∧
    (∀ (t : SimplexTableau) (r c it : ℕ),
      (SimplexSolver.pivot t r c it).pivotRow = none ∧
      (SimplexSolver.pivot t r c it).pivotCol = none) ∧
    (∀ (t : SimplexTableau) (r c : ℕ),
      (SimplexSolver.recordPivot t r c).table = t.table ∧
      (SimplexSolver.recordPivot t r c).basicVariables = t.basicVariables ∧
      (SimplexSolver.recordPivot t r c).isOptimal = t.isOptimal ∧
      (SimplexSolver.recordPivot t r c).pivotRow = some r ∧
      (SimplexSolver.recordPivot t r c).pivotCol = some c) ∧
    (∀ (p : LPProblem) (k : ℕ), k + 1 < (SimplexSolver.solve p).tableaus.length →
      ((SimplexSolver.solve p).tableaus.getD k emptyTableau).pivotRow ≠ none ∧
      ((SimplexSolver.solve p).tableaus.getD k emptyTableau).pivotCol ≠ none) := by
  refine ⟨fun sf => ⟨rfl, rfl⟩, fun t r c it => ⟨rfl, rfl⟩,
    fun t r c => ⟨rfl, rfl, rfl, rfl, rfl⟩, ?_⟩
  intro p k hk
  exact solveLoop_recorded _ 100 _ _ 0 (fun k' hk' => by simp at hk') k hk

/-- Witness for C6: on Scenario A the first recorded snapshot ends up with a
pivot position recorded, though it was created with none. -/
theorem C6_snapshot_fields_witness :
    ((SimplexSolver.solve scnA).tableaus.getD 0 emptyTableau).pivotRow ≠ none ∧
    ((SimplexSolver.solve scnA).tableaus.getD 0 emptyTableau).pivotCol ≠ none ∧
    (SimplexSolver.initializeTableau (SimplexSolver.convertToStandardForm scnA)).pivotRow
      = none :=
  ⟨(C6_snapshot_fields.2.2.2 scnA 0 (by with_unfolding_all decide)).1,
   (C6_snapshot_fields.2.2.2 scnA 0 (by with_unfolding_all decide)).2,
   (C6_snapshot_fields.1 _).1⟩

/-! ## Claim C3, amended -/

theorem filterMap_cons_toList (f : α → Option β) (a : α) (l : List α) :
    List.filterMap f (a :: l) = (f a).toList ++ List.filterMap f l := by
  cases h : f a <;> simp [List.filterMap_cons, h]

theorem convertConsGo_counts : ∀ (cs : List LPConstraint) (s u a : ℕ),
    (SimplexSolver.convertConsGo cs s u a).2.1 =
      s + cs.countP (fun c => decide (c.operator = ("≤"))) ∧
    (SimplexSolver.convertConsGo cs s u a).2.2.1 =
      u + cs.countP (fun c => decide (c.operator = ("≥"))) ∧
    (SimplexSolver.convertConsGo cs s u a).2.2.2 =
      a + cs.countP (fun c => (decide (c.operator = ("≥")) || decide (c.operator = ("=")))) := by
  intro cs
  induction cs with
  | nil => intro s u a; simp [SimplexSolver.convertConsGo]
  | cons c rest ih =>
    intro s u a
    by_cases hle : c.operator = ("≤")
    · have h := ih (s + 1) u a
      simp only [SimplexSolver.convertConsGo, hle, if_true]
      simp [hle, List.countP_cons]
      omega
    · by_cases hge : c.operator = ("≥")
      · have h := ih s (u + 1) (a + 1)
        simp only [SimplexSolver.convertConsGo, hle, hge, if_false, if_true]
        simp [hle, hge, List.countP_cons]
        omega
      · by_cases heq : c.operator = ("=")
        · have h := ih s u (a + 1)
          simp only [SimplexSolver.convertConsGo, hle, hge, heq, if_false, if_true]
          simp [hle, hge, heq, List.countP_cons]
          omega
        · have h := ih s u a
          simp only [SimplexSolver.convertConsGo, hle, hge, heq, if_false]
          simp [hle, hge, heq, List.countP_cons]
          omega

theorem convertConsGo_slackNames : ∀ (cs : List LPConstraint) (s u a : ℕ),
    (SimplexSolver.convertConsGo cs s u a).1.filterMap (fun c => c.slackVar) =
      (List.range (cs.countP (fun c => decide (c.operator = ("≤"))))).map
        (fun k => ("s") ++ decStr (s + k + 1)) := by
  intro cs
  induction cs with
  | nil => intro s u a; simp [SimplexSolver.convertConsGo]
  | cons c rest ih =>
    intro s u a
    by_cases hle : c.operator = ("≤")
    · have h := ih (s + 1) u a
      have hd : decide (c.operator = ("≤")) = true := by simp [hle]
      simp only [SimplexSolver.convertConsGo]
      rw [if_pos hle]
      simp only [List.countP_cons, hd, if_true, List.range_succ_eq_map, List.map_cons,
        List.map_map, filterMap_cons_toList, Option.toList_some, List.singleton_append]
      rw [h]
      simp only [Nat.add_zero]
      congr 1
      apply List.map_congr_left
      intro k _
      exact congrArg (fun m => ("s") ++ decStr m) (by omega)
    · have hd : decide (c.operator = ("≤")) = false := by simp [hle]
      by_cases hge : c.operator = ("≥")
      · have h := ih s (u + 1) (a + 1)
        simp only [SimplexSolver.convertConsGo]
        rw [if_neg hle, if_pos hge]
        simp only [List.countP_cons, hd, if_false, filterMap_cons_toList,
          Option.toList_none, List.nil_append, Nat.add_zero]
        exact h
      · by_cases heq : c.operator = ("=")
        · have h := ih s u (a + 1)
          simp only [SimplexSolver.convertConsGo]
          rw [if_neg hle, if_neg hge, if_pos heq]
          simp only [List.countP_cons, hd, if_false, filterMap_cons_toList,
            Option.toList_none, List.nil_append, Nat.add_zero]
          exact h
        · have h := ih s u a
          simp only [SimplexSolver.convertConsGo]
          rw [if_neg hle, if_neg hge, if_neg heq]
          simp only [List.countP_cons, hd, if_false, filterMap_cons_toList,
            Option.toList_none, List.nil_append, Nat.add_zero]
          exact h

theorem convertConsGo_surplusNames : ∀ (cs : List LPConstraint) (s u a : ℕ),
    (SimplexSolver.convertConsGo cs s u a).1.filterMap (fun c => c.surplusVar) =
      (List.range (cs.countP (fun c => decide (c.operator = ("≥"))))).map
        (fun k => ("s") ++ decStr (u + k + 1)) := by
  intro cs
  induction cs with
  | nil => intro s u a; simp [SimplexSolver.convertConsGo]
  | cons c rest ih =>
    intro s u a
    by_cases hle : c.operator = ("≤")
    · have hd : decide (c.operator = ("≥")) = false := by simp [hle]
      have h := ih (s + 1) u a
      simp only [SimplexSolver.convertConsGo]
      rw [if_pos hle]
      simp only [List.countP_cons, hd, if_false, filterMap_cons_toList,
        Option.toList_none, List.nil_append, Nat.add_zero]
      exact h
    · by_cases hge : c.operator = ("≥")
      · have hd : decide (c.operator = ("≥")) = true := by simp [hge]
        have h := ih s (u + 1) (a + 1)
        simp only [SimplexSolver.convertConsGo]
        rw [if_neg hle, if_pos hge]
        simp only [List.countP_cons, hd, if_true, List.range_succ_eq_map, List.map_cons,
          List.map_map, filterMap_cons_toList, Option.toList_some, Option.toList_none,
          List.nil_append, List.singleton_append]
        rw [h]
        simp only [Nat.add_zero]
        congr 1
        apply List.map_congr_left
        intro k _
        exact congrArg (fun m => ("s") ++ decStr m) (by omega)
      · have hd : decide (c.operator = ("≥")) = false := by simp [hge]
        by_cases heq : c.operator = ("=")
        · have h := ih s u (a + 1)
          simp only [SimplexSolver.convertConsGo]
          rw [if_neg hle, if_neg hge, if_pos heq]
          simp only [List.countP_cons, hd, if_false, filterMap_cons_toList,
            Option.toList_none, List.nil_append, Nat.add_zero]
          exact h
        · have h := ih s u a
          simp only [SimplexSolver.convertConsGo]
          rw [if_neg hle, if_neg hge, if_neg heq]
          simp only [List.countP_cons, hd, if_false, filterMap_cons_toList,
            Option.toList_none, List.nil_append, Nat.add_zero]
          exact h

theorem convertConsGo_artificialNames : ∀ (cs : List LPConstraint) (s u a : ℕ),
    (SimplexSolver.convertConsGo cs s u a).1.filterMap (fun c => c.artificialVar) =
      (List.range (cs.countP (fun c =>
          (decide (c.operator = ("≥")) || decide (c.operator = ("=")))))).map
        (fun k => ("a") ++ decStr (a + k + 1)) := by
  intro cs
  induction cs with
  | nil => intro s u a; simp [SimplexSolver.convertConsGo]
  | cons c rest ih =>
    intro s u a
    by_cases hle : c.operator = ("≤")
    · have hd : (decide (c.operator = ("≥")) || decide (c.operator = ("="))) = false := by
        simp [hle]
      have h := ih (s + 1) u a
      simp only [SimplexSolver.convertConsGo]
      rw [if_pos hle]
      simp only [List.countP_cons, hd, if_false, filterMap_cons_toList,
        Option.toList_none, List.nil_append, Nat.add_zero]
      exact h
    · by_cases hge : c.operator = ("≥")
      · have hd : (decide (c.operator = ("≥")) || decide (c.operator = ("="))) = true := by
          simp [hge]
        have h := ih s (u + 1) (a + 1)
        simp only [SimplexSolver.convertConsGo]
        rw [if_neg hle, if_pos hge]
        simp only [List.countP_cons, hd, if_true, List.range_succ_eq_map, List.map_cons,
          List.map_map, filterMap_cons_toList, Option.toList_some, Option.toList_none,
          List.nil_append, List.singleton_append]
        rw [h]
        simp only [Nat.add_zero]
        congr 1
        apply List.map_congr_left
        intro k _
        exact congrArg (fun m => ("a") ++ decStr m) (by omega)
      · by_cases heq : c.operator = ("=")
        · have hd : (decide (c.operator = ("≥")) || decide (c.operator = ("="))) = true := by
            simp [heq]
          have h := ih s u (a + 1)
          simp only [SimplexSolver.convertConsGo]
          rw [if_neg hle, if_neg hge, if_pos heq]
          simp only [List.countP_cons, hd, if_true, List.range_succ_eq_map, List.map_cons,
            List.map_map, filterMap_cons_toList, Option.toList_some, Option.toList_none,
            List.nil_append, List.singleton_append]
          rw [h]
          simp only [Nat.add_zero]
          congr 1
          apply List.map_congr_left
          intro k _
          exact congrArg (fun m => ("a") ++ decStr m) (by omega)
        · have hd : (decide (c.operator = ("≥")) || decide (c.operator = ("="))) = false := by
            simp [hge, heq]
          have h := ih s u a
          simp only [SimplexSolver.convertConsGo]
          rw [if_neg hle, if_neg hge, if_neg heq]
          simp only [List.countP_cons, hd, if_false, filterMap_cons_toList,
            Option.toList_none, List.nil_append, Nat.add_zero]
          exact h

/-- Slack-variable names of a standard form, in constraint order. -/
def slackNames (sf : StandardForm) : List String :=
  sf.constraints.filterMap (fun c => c.slackVar)

/-- Surplus-variable names of a standard form, in constraint order. -/
def surplusNames (sf : StandardForm) : List String :=
  sf.constraints.filterMap (fun c => c.surplusVar)

/-- Artificial-variable names of a standard form, in constraint order. -/
def artificialNames (sf : StandardForm) : List String :=
  sf.constraints.filterMap (fun c => c.artificialVar)

theorem prefix_decStr_injective (p : String) :
    Function.Injective (fun k : ℕ => p ++ decStr (k + 1)) := by
  intro a b h
  have h1 := string_append_inj_right p _ _ h
  have h2 := decStr_inj h1
  omega

theorem a_name_ne_s_name (x y : ℕ) : ("a") ++ decStr x ≠ ("s") ++ decStr y := by
  intro h
  have h2 := congrArg String.data h
  rw [String.data_append, String.data_append] at h2
  have ha : (("a" : String)).data = [('a')] := rfl
  have hs : (("s" : String)).data = [('s')] := rfl
  rw [ha, hs] at h2
  have h3 : (('a') : Char) = ('s') := List.head_eq_of_cons_eq h2
  exact absurd h3 (by decide)

theorem auxNames_perm (cs : List StdConstraint) :
    List.Perm
      (cs.foldr (fun c acc =>
        c.slackVar.toList ++ c.surplusVar.toList ++ c.artificialVar.toList ++ acc) [])
      (cs.filterMap (fun c => c.slackVar) ++
         (cs.filterMap (fun c => c.surplusVar) ++
          cs.filterMap (fun c => c.artificialVar))) := by
  induction cs with
  | nil => simp
  | cons c rest ih =>
    rw [← Multiset.coe_eq_coe]
    have ih' := Multiset.coe_eq_coe.mpr ih
    simp only [List.foldr_cons, filterMap_cons_toList, List.append_assoc,
      ← Multiset.coe_add] at ih' ⊢
    rw [ih']
    abel

/-- C3 (amended): per-kind counters start at 1 and increment in constraint
order — the slack names are exactly `s1 … s(slackVarCount)`, the surplus names
`s1 … s(surplusVarCount)`, the artificial names `a1 … a(artificialVarCount)`,
each kind in constraint order and pairwise distinct within the kind, and
artificial names never collide with slack/surplus names. Full pairwise
distinctness of all auxiliary names holds whenever the problem does not mix
`≤` with `≥` constraints; with both present, the independent slack and surplus
counters reuse the shared prefix `s` (see the counterexample). -/
theorem C3_aux_names_assignment (p : LPProblem) :
    (slackNames (SimplexSolver.convertToStandardForm p) =
      (List.range (SimplexSolver.convertToStandardForm p).slackVarCount).map
        (fun k => ("s") ++ decStr (k + 1))) ∧
    (surplusNames (SimplexSolver.convertToStandardForm p) =
      (List.range (SimplexSolver.convertToStandardForm p).surplusVarCount).map
        (fun k => ("s") ++ decStr (k + 1))) ∧
    (artificialNames (SimplexSolver.convertToStandardForm p) =
      (List.range (SimplexSolver.convertToStandardForm p).artificialVarCount).map
        (fun k => ("a") ++ decStr (k + 1))) ∧
    (slackNames (SimplexSolver.convertToStandardForm p)).Nodup ∧
    (surplusNames (SimplexSolver.convertToStandardForm p)).Nodup ∧
    (artificialNames (SimplexSolver.convertToStandardForm p)).Nodup ∧
    (∀ n ∈ artificialNames (SimplexSolver.convertToStandardForm p),
      n ∉ slackNames (SimplexSolver.convertToStandardForm p) ∧
      n ∉ surplusNames (SimplexSolver.convertToStandardForm p)) ∧
    (((∀ c ∈ p.constraints, c.operator ≠ ("≤")) ∨
      (∀ c ∈ p.constraints, c.operator ≠ ("≥"))) →
      (auxNames (SimplexSolver.convertToStandardForm p)).Nodup) := by
  have hslack : slackNames (SimplexSolver.convertToStandardForm p) =
      (List.range (SimplexSolver.convertToStandardForm p).slackVarCount).map
        (fun k => ("s") ++ decStr (k + 1)) := by
    have h1 := convertConsGo_slackNames p.constraints 0 0 0
    have h2 := (convertConsGo_counts p.constraints 0 0 0).1
    simp only [slackNames, SimplexSolver.convertToStandardForm]
    rw [h1, h2]
    simp
  have hsurplus : surplusNames (SimplexSolver.convertToStandardForm p) =
      (List.range (SimplexSolver.convertToStandardForm p).surplusVarCount).map
        (fun k => ("s") ++ decStr (k + 1)) := by
    have h1 := convertConsGo_surplusNames p.constraints 0 0 0
    have h2 := (convertConsGo_counts p.constraints 0 0 0).2.1
    simp only [surplusNames, SimplexSolver.convertToStandardForm]
    rw [h1, h2]
    simp
  have hartificial : artificialNames (SimplexSolver.convertToStandardForm p) =
      (List.range (SimplexSolver.convertToStandardForm p).artificialVarCount).map
        (fun k => ("a") ++ decStr (k + 1)) := by
    have h1 := convertConsGo_artificialNames p.constraints 0 0 0
    have h2 := (convertConsGo_counts p.constraints 0 0 0).2.2
    simp only [artificialNames, SimplexSolver.convertToStandardForm]
    rw [h1, h2]
    simp
  have hslackN : (slackNames (SimplexSolver.convertToStandardForm p)).Nodup := by
    rw [hslack]
    exact (List.nodup_range _).map (prefix_decStr_injective ("s"))
  have hsurplusN : (surplusNames (SimplexSolver.convertToStandardForm p)).Nodup := by
    rw [hsurplus]
    exact (List.nodup_range _).map (prefix_decStr_injective ("s"))
  have hartificialN : (artificialNames (SimplexSolver.convertToStandardForm p)).Nodup := by
    rw [hartificial]
    exact (List.nodup_range _).map (prefix_decStr_injective ("a"))
  have hdisj : ∀ n ∈ artificialNames (SimplexSolver.convertToStandardForm p),
      n ∉ slackNames (SimplexSolver.convertToStandardForm p) ∧
      n ∉ surplusNames (SimplexSolver.convertToStandardForm p) := by
    intro n hn
    rw [hartificial] at hn
    rw [List.mem_map] at hn
    obtain ⟨k, _, rfl⟩ := hn
    constructor
    · intro hmem
      rw [hslack, List.mem_map] at hmem
      obtain ⟨j, _, hEq⟩ := hmem
      exact a_name_ne_s_name (k + 1) (j + 1) hEq.symm
    · intro hmem
      rw [hsurplus, List.mem_map] at hmem
      obtain ⟨j, _, hEq⟩ := hmem
      exact a_name_ne_s_name (k + 1) (j + 1) hEq.symm
  refine ⟨hslack, hsurplus, hartificial, hslackN, hsurplusN, hartificialN, hdisj, ?_⟩
  intro hmix
  have hperm : List.Perm (auxNames (SimplexSolver.convertToStandardForm p))
      (slackNames (SimplexSolver.convertToStandardForm p) ++
       (surplusNames (SimplexSolver.convertToStandardForm p) ++
        artificialNames (SimplexSolver.convertToStandardForm p))) :=
    auxNames_perm _
  rw [hperm.nodup_iff]
  have hcount := convertConsGo_counts p.constraints 0 0 0
  rcases hmix with hno | hno
  · have hze : (SimplexSolver.convertToStandardForm p).slackVarCount = 0 := by
      simp only [SimplexSolver.convertToStandardForm]
      rw [hcount.1]
      simp only [Nat.zero_add]
      rw [List.countP_eq_zero]
      intro c hc
      simpa using hno c hc
    have hsl : slackNames (SimplexSolver.convertToStandardForm p) = [] := by
      rw [hslack, hze]
      rfl
    rw [hsl, List.nil_append]
    refine List.Nodup.append hsurplusN hartificialN ?_
    intro n hn hn'
    exact (hdisj n hn').2 hn
  · have hze : (SimplexSolver.convertToStandardForm p).surplusVarCount = 0 := by
      simp only [SimplexSolver.convertToStandardForm]
      rw [hcount.2.1]
      simp only [Nat.zero_add]
      rw [List.countP_eq_zero]
      intro c hc
      simpa using hno c hc
    have hsu : surplusNames (SimplexSolver.convertToStandardForm p) = [] := by
      rw [hsurplus, hze]
      rfl
    rw [hsu, List.nil_append]
    refine List.Nodup.append hslackN hartificialN ?_
    intro n hn hn'
    exact (hdisj n hn').1 hn

/-- Witness for C3 (amended) at Scenario A (two `≤` constraints): the slack
names are exactly `s1, s2` and all auxiliary names are pairwise distinct. -/
theorem C3_aux_names_witness :
    slackNames (SimplexSolver.convertToStandardForm scnA) =
      (List.range (SimplexSolver.convertToStandardForm scnA).slackVarCount).map
        (fun k => ("s") ++ decStr (k + 1)) ∧
    (auxNames (SimplexSolver.convertToStandardForm scnA)).Nodup :=
  ⟨(C3_aux_names_assignment scnA).1,
   (C3_aux_names_assignment scnA).2.2.2.2.2.2.2
     (Or.inr (by with_unfolding_all decide))⟩

/-! ## Claim C7 -/

/-- The minimum-ratio-test value `rhs / entry` of a tableau row (the source's
`ratio = rhs / element`). -/
def rowRatio (row : List ℚ) (c : ℕ) : ℚ :=
  row.getD (row.length - 1) 0 / row.getD c 0

theorem fprGo_some_isSome : ∀ (rows : List (List ℚ)) (c i : ℕ) (b : ℕ × ℚ),
    ∃ r, SimplexSolver.fprGo rows c i (some b) = some r := by
  intro rows
  induction rows with
  | nil => intro c i b; exact ⟨b, rfl⟩
  | cons row rest ih =>
    intro c i b
    obtain ⟨bi, br⟩ := b
    simp only [SimplexSolver.fprGo]
    by_cases he : 0 < row.getD c 0
    · rw [if_pos he]
      by_cases hlt : (row.getD (row.length - 1) 0 / row.getD c 0) < br
      · rw [if_pos hlt]
        exact ih c (i + 1) _
      · rw [if_neg hlt]
        exact ih c (i + 1) _
    · rw [if_neg he]
      exact ih c (i + 1) _

theorem fprGo_none_iff : ∀ (rows : List (List ℚ)) (c i : ℕ),
    SimplexSolver.fprGo rows c i none = none ↔ ∀ row ∈ rows, row.getD c 0 ≤ 0 := by
  intro rows
  induction rows with
  | nil => intro c i; simp [SimplexSolver.fprGo]
  | cons row rest ih =>
    intro c i
    simp only [SimplexSolver.fprGo]
    by_cases he : 0 < row.getD c 0
    · rw [if_pos he]
      constructor
      · intro h
        obtain ⟨r, hr⟩ := fprGo_some_isSome rest c (i + 1)
          (i, row.getD (row.length - 1) 0 / row.getD c 0)
        rw [hr] at h
        exact absurd h (by simp)
      · intro h
        exact absurd (h row (by simp)) (not_le.mpr he)
    · rw [if_neg he]
      rw [ih c (i + 1)]
      constructor
      · intro h row' hrow'
        rcases List.mem_cons.mp hrow' with hEq | hm
        · rw [hEq]; exact le_of_not_lt he
        · exact h row' hm
      · intro h row' hm
        exact h row' (List.mem_cons_of_mem _ hm)

theorem fprGo_spec : ∀ (rows : List (List ℚ)) (c i : ℕ) (best : Option (ℕ × ℚ))
    (r : ℕ) (br : ℚ),
    SimplexSolver.fprGo rows c i best = some (r, br) →
    (best = some (r, br) ∧
      ∀ j, j < rows.length → 0 < (rows.getD j []).getD c 0 →
        br ≤ rowRatio (rows.getD j []) c) ∨
    (∃ j, j < rows.length ∧ r = i + j ∧ 0 < (rows.getD j []).getD c 0 ∧
      br = rowRatio (rows.getD j []) c ∧
      (∀ k, k < j → 0 < (rows.getD k []).getD c 0 →
        br < rowRatio (rows.getD k []) c) ∧
      (∀ k, j < k → k < rows.length → 0 < (rows.getD k []).getD c 0 →
        br ≤ rowRatio (rows.getD k []) c) ∧
      (∀ bi br0, best = some (bi, br0) → br < br0)) := by
  intro rows
  induction rows with
  | nil =>
    intro c i best r br h
    simp only [SimplexSolver.fprGo] at h
    exact Or.inl ⟨h, by intro j hj; simp at hj⟩
  | cons row rest ih =>
    intro c i best r br h
    simp only [SimplexSolver.fprGo] at h
    by_cases he : 0 < row.getD c 0
    · rw [if_pos he] at h
      cases best with
      | none =>
        rcases ih c (i + 1) _ r br h with ⟨hbest, hall⟩ |
          ⟨j, hj, hrj, hpos, hbr, hlt, hle2, hbest⟩
        · simp only [Option.some.injEq, Prod.mk.injEq] at hbest
          obtain ⟨hri, hbr2⟩ := hbest
          refine Or.inr ⟨0, by simp, by omega, by simpa using he, ?_, ?_, ?_, ?_⟩
          · rw [← hbr2]; rfl
          · intro k hk _; omega
          · intro k hk0 hklen hpk
            cases k with
            | zero => omega
            | succ k' =>
              rw [List.getD_cons_succ] at hpk ⊢
              exact hall k' (by simpa using hklen) hpk
          · intro bi br0 habs; exact absurd habs (by simp)
        · refine Or.inr ⟨j + 1, by simpa using hj, by omega, ?_, ?_, ?_, ?_, ?_⟩
          · rw [List.getD_cons_succ]; exact hpos
          · rw [List.getD_cons_succ]; exact hbr
          · intro k hk hpk
            cases k with
            | zero =>
              rw [List.getD_cons_zero] at hpk ⊢
              exact hbest i _ rfl
            | succ k' =>
              rw [List.getD_cons_succ] at hpk ⊢
              exact hlt k' (by omega) hpk
          · intro k hk hklen hpk
            cases k with
            | zero => omega
            | succ k' =>
              rw [List.getD_cons_succ] at hpk ⊢
              exact hle2 k' (by omega) (by simpa using hklen) hpk
          · intro bi br0 habs; exact absurd habs (by simp)
      | some b =>
        obtain ⟨bi, br0⟩ := b
        dsimp only at h
        by_cases hlt0 : (row.getD (row.length - 1) 0 / row.getD c 0) < br0
        · rw [if_pos hlt0] at h
          rcases ih c (i + 1) _ r br h with ⟨hbest, hall⟩ |
            ⟨j, hj, hrj, hpos, hbr, hlt, hle2, hbest⟩
          · simp only [Option.some.injEq, Prod.mk.injEq] at hbest
            obtain ⟨hri, hbr2⟩ := hbest
            refine Or.inr ⟨0, by simp, by omega, by simpa using he, ?_, ?_, ?_, ?_⟩
            · rw [← hbr2]; rfl
            · intro k hk _; omega
            · intro k hk0 hklen hpk
              cases k with
              | zero => omega
              | succ k' =>
                rw [List.getD_cons_succ] at hpk ⊢
                exact hall k' (by simpa using hklen) hpk
            · intro bi' br0' habs
              simp only [Option.some.injEq, Prod.mk.injEq] at habs
              rw [← habs.2, ← hbr2]
              exact hlt0
          · refine Or.inr ⟨j + 1, by simpa using hj, by omega, ?_, ?_, ?_, ?_, ?_⟩
            · rw [List.getD_cons_succ]; exact hpos
            · rw [List.getD_cons_succ]; exact hbr
            · intro k hk hpk
              cases k with
              | zero =>
                rw [List.getD_cons_zero] at hpk ⊢
                exact hbest i _ rfl
              | succ k' =>
                rw [List.getD_cons_succ] at hpk ⊢
                exact hlt k' (by omega) hpk
            · intro k hk hklen hpk
              cases k with
              | zero => omega
              | succ k' =>
                rw [List.getD_cons_succ] at hpk ⊢
                exact hle2 k' (by omega) (by simpa using hklen) hpk
            · intro bi' br0' habs
              simp only [Option.some.injEq, Prod.mk.injEq] at habs
              rw [← habs.2]
              exact lt_trans (hbest i _ rfl) hlt0
        · rw [if_neg hlt0] at h
          rcases ih c (i + 1) _ r br h with ⟨hbest, hall⟩ |
            ⟨j, hj, hrj, hpos, hbr, hlt, hle2, hbest⟩
          · simp only [Option.some.injEq, Prod.mk.injEq] at hbest
            obtain ⟨hri, hbr2⟩ := hbest
            refine Or.inl ⟨by rw [hri, hbr2], ?_⟩
            intro k hklen hpk
            cases k with
            | zero =>
              rw [List.getD_cons_zero] at hpk ⊢
              rw [← hbr2]
              exact le_of_not_lt hlt0
            | succ k' =>
              rw [List.getD_cons_succ] at hpk ⊢
              exact hall k' (by simpa using hklen) hpk
          · refine Or.inr ⟨j + 1, by simpa using hj, by omega, ?_, ?_, ?_, ?_, ?_⟩
            · rw [List.getD_cons_succ]; exact hpos
            · rw [List.getD_cons_succ]; exact hbr
            · intro k hk hpk
              cases k with
              | zero =>
                rw [List.getD_cons_zero] at hpk ⊢
                exact lt_of_lt_of_le (hbest bi br0 rfl) (le_of_not_lt hlt0)
              | succ k' =>
                rw [List.getD_cons_succ] at hpk ⊢
                exact hlt k' (by omega) hpk
            · intro k hk hklen hpk
              cases k with
              | zero => omega
              | succ k' =>
                rw [List.getD_cons_succ] at hpk ⊢
                exact hle2 k' (by omega) (by simpa using hklen) hpk
            · intro bi' br0' habs
              simp only [Option.some.injEq, Prod.mk.injEq] at habs
              rw [← habs.2]
              exact hbest bi br0 rfl
    · rw [if_neg he] at h
      rcases ih c (i + 1) best r br h with ⟨hbest, hall⟩ |
        ⟨j, hj, hrj, hpos, hbr, hlt, hle2, hbest⟩
      · refine Or.inl ⟨hbest, ?_⟩
        intro k hklen hpk
        cases k with
        | zero =>
          rw [List.getD_cons_zero] at hpk
          exact absurd hpk he
        | succ k' =>
          rw [List.getD_cons_succ] at hpk ⊢
          exact hall k' (by simpa using hklen) hpk
      · refine Or.inr ⟨j + 1, by simpa using hj, by omega, ?_, ?_, ?_, ?_, hbest⟩
        · rw [List.getD_cons_succ]; exact hpos
        · rw [List.getD_cons_succ]; exact hbr
        · intro k hk hpk
          cases k with
          | zero =>
            rw [List.getD_cons_zero] at hpk
            exact absurd hpk he
          | succ k' =>
            rw [List.getD_cons_succ] at hpk ⊢
            exact hlt k' (by omega) hpk
        · intro k hk hklen hpk
          cases k with
          | zero => omega
          | succ k' =>
            rw [List.getD_cons_succ] at hpk ⊢
            exact hle2 k' (by omega) (by simpa using hklen) hpk

/-- C7: `findPivotRow` returns `none` exactly when no constraint row has a
strictly positive entry in the pivot column; otherwise it returns the
constraint row minimizing `rhs / entry` over the rows with strictly positive
entry, ties resolved to the lowest row index; and when the selected pivot
column admits no pivot row, `solve`'s loop terminates with an unbounded
result. -/
theorem C7_pivot_row_selection (t : SimplexTableau) (c : ℕ) :
    (SimplexSolver.findPivotRow t c = none ↔
      ∀ i, i < t.table.length - 1 → (t.table.getD i []).getD c 0 ≤ 0) ∧
    (∀ r, SimplexSolver.findPivotRow t c = some r →
      r < t.table.length - 1 ∧ 0 < (t.table.getD r []).getD c 0 ∧
      (∀ i, i < t.table.length - 1 → 0 < (t.table.getD i []).getD c 0 →
        rowRatio (t.table.getD r []) c ≤ rowRatio (t.table.getD i []) c) ∧
      (∀ i, i < r → 0 < (t.table.getD i []).getD c 0 →
        rowRatio (t.table.getD r []) c < rowRatio (t.table.getD i []) c)) ∧
    (∀ (sf : StandardForm) (fuel : ℕ) (acc : List SimplexTableau) (iter : ℕ),
      t.isOptimal = false → SimplexSolver.findPivotColumn t = some c →
      SimplexSolver.findPivotRow t c = none →
      (SimplexSolver.solveLoop sf (fuel + 1) t acc iter).isUnbounded = true) := by
  have htr : ∀ k, k < t.table.length - 1 →
      t.table.dropLast.getD k [] = t.table.getD k [] := fun k hk =>
    getD_dropLast _ _ _ hk
  have hlen : t.table.dropLast.length = t.table.length - 1 := List.length_dropLast _
  refine ⟨?_, ?_, ?_⟩
  · rw [SimplexSolver.findPivotRow, Option.map_eq_none', fprGo_none_iff]
    constructor
    · intro h i hi
      have hi' : i < t.table.dropLast.length := by omega
      have := h (t.table.dropLast.getD i []) (getD_mem _ _ _ hi')
      rwa [htr i hi] at this
    · intro h row hrow
      obtain ⟨i, hi, hrowEq⟩ := List.mem_iff_getElem.mp hrow
      have hi' : i < t.table.length - 1 := by omega
      have hval : t.table.dropLast.getD i [] = row := by
        rw [List.getD_eq_getElem?_getD, List.getElem?_eq_getElem hi, hrowEq]
        rfl
      have h2 := h i hi'
      rw [← htr i hi', hval] at h2
      exact h2
  · intro r hr
    rw [SimplexSolver.findPivotRow, Option.map_eq_some'] at hr
    obtain ⟨⟨r', br⟩, hfpr, hfst⟩ := hr
    simp only at hfst
    subst hfst
    rcases fprGo_spec _ _ _ _ _ _ hfpr with ⟨habs, _⟩ |
      ⟨j, hj, hrj, hpos, hbr, hlt, hle2, _⟩
    · exact absurd habs (by simp)
    · have hjr : j = r' := by omega
      subst hjr
      have hjlt : j < t.table.length - 1 := by omega
      rw [htr j hjlt] at hpos hbr
      refine ⟨hjlt, hpos, ?_, ?_⟩
      · intro i hi hpi
        rcases lt_trichotomy i j with hij | hij | hij
        · have hthis := hlt i hij (by rwa [htr i (by omega)])
          rw [htr i (by omega)] at hthis
          rw [← hbr]
          exact le_of_lt hthis
        · subst hij; exact le_refl _
        · have hthis := hle2 i hij (by omega) (by rwa [htr i (by omega)])
          rw [htr i (by omega)] at hthis
          rw [← hbr]
          exact hthis
      · intro i hi hpi
        have hilt : i < t.table.length - 1 := by omega
        have hthis := hlt i hi (by rwa [htr i hilt])
        rw [htr i hilt] at hthis
        rw [← hbr]
        exact hthis
  · intro sf fuel acc iter h1 h2 h3
    simp only [SimplexSolver.solveLoop, h1, Bool.false_eq_true, if_false, h2, h3]

/-- The tableau after the first pivot of `solve` on Scenario C (the rules
select position (0, 0)); from it the pivot rules select column 1, where no
row has a strictly positive entry. -/
def scnCtab1 : SimplexTableau :=
  SimplexSolver.pivot
    (SimplexSolver.initializeTableau (SimplexSolver.convertToStandardForm scnC)) 0 0 1

/-- Witness for C7: on Scenario C's second tableau, column 1 has no positive
entry, `findPivotRow` returns `none`, and the loop reports unboundedness; on
`pMixTab1`, the returned pivot row 1 is a constraint row. -/
theorem C7_pivot_row_selection_witness :
    SimplexSolver.findPivotRow scnCtab1 1 = none ∧
    1 < pMixTab1.table.length - 1 ∧
    (SimplexSolver.solveLoop (SimplexSolver.convertToStandardForm scnC) 99 scnCtab1 []
      1).isUnbounded = true :=
  ⟨(C7_pivot_row_selection scnCtab1 1).1.mpr (by with_unfolding_all decide),
   ((C7_pivot_row_selection pMixTab1 2).2.1 1 (by with_unfolding_all decide)).1,
   (C7_pivot_row_selection scnCtab1 1).2.2 (SimplexSolver.convertToStandardForm scnC)
     98 [] 1 (by with_unfolding_all decide) (by with_unfolding_all decide)
     ((C7_pivot_row_selection scnCtab1 1).1.mpr (by with_unfolding_all decide))⟩

/-! ## Claim C8, amended -/

theorem if_abs_getD (l : List ℚ) (idx : ℕ) :
    (if idx < l.length then |l.getD idx 0| else 0) = |l.getD idx 0| := by
  by_cases h : idx < l.length
  · rw [if_pos h]
  · rw [if_neg h]
    rw [List.getD_eq_getElem?_getD, List.getElem?_eq_none (by omega)]
    simp

theorem shadowPricesGo_get : ∀ (cs : List LPConstraint) (rand : ℕ → ℚ)
    (objRow : List ℚ) (numVars i0 k i : ℕ), i < cs.length →
    ∃ e, (SensitivityAnalyzer.shadowPricesGo rand objRow numVars cs i0 k).1.get? i
          = some e ∧
      e.shadowPrice = (if numVars + (i0 + i) < objRow.length
        then |objRow.getD (numVars + (i0 + i)) 0| else 0) := by
  intro cs
  induction cs with
  | nil => intro rand objRow numVars i0 k i h; simp at h
  | cons con rest ih =>
    intro rand objRow numVars i0 k i h
    cases i with
    | zero =>
      simp only [SensitivityAnalyzer.shadowPricesGo]
      exact ⟨_, rfl, by simp⟩
    | succ i' =>
      simp only [SensitivityAnalyzer.shadowPricesGo, List.get?_cons_succ]
      obtain ⟨e, he, hsp⟩ := ih rand objRow numVars (i0 + 1) _ i'
        (by simp only [List.length_cons] at h; omega)
      refine ⟨e, he, ?_⟩
      rw [hsp]
      have harith : numVars + (i0 + 1 + i') = numVars + (i0 + (i' + 1)) := by omega
      rw [harith]

theorem convertConsGo_le_auxCount : ∀ (cs : List LPConstraint) (s u a : ℕ),
    (∀ c ∈ cs, c.operator = ("≤")) →
    ∀ sc ∈ (SimplexSolver.convertConsGo cs s u a).1, auxCount sc = 1 := by
  intro cs
  induction cs with
  | nil => intro s u a _ sc hsc; simp [SimplexSolver.convertConsGo] at hsc
  | cons c rest ih =>
    intro s u a hall sc hsc
    have hc : c.operator = ("≤") := hall c (by simp)
    simp only [SimplexSolver.convertConsGo] at hsc
    rw [if_pos hc] at hsc
    rcases List.mem_cons.mp hsc with hEq | hm
    · rw [hEq]; rfl
    · exact ih (s + 1) u a (fun x hx => hall x (by simp [hx])) sc hm

theorem sum_map_one : ∀ (l : List α) (f : α → ℕ), (∀ x ∈ l, f x = 1) →
    (l.map f).sum = l.length := by
  intro l
  induction l with
  | nil => intro f _; rfl
  | cons x xs ih =>
    intro f h
    simp only [List.map_cons, List.sum_cons, List.length_cons, h x (by simp)]
    rw [ih f (fun y hy => h y (by simp [hy]))]
    omega

theorem convertConsGo_length : ∀ (cs : List LPConstraint) (s u a : ℕ),
    (SimplexSolver.convertConsGo cs s u a).1.length = cs.length := by
  intro cs
  induction cs with
  | nil => intro s u a; rfl
  | cons c rest ih =>
    intro s u a
    by_cases hle : c.operator = ("≤")
    · simp only [SimplexSolver.convertConsGo]
      rw [if_pos hle]
      simp [ih (s + 1) u a]
    · by_cases hge : c.operator = ("≥")
      · simp only [SimplexSolver.convertConsGo]
        rw [if_neg hle, if_pos hge]
        simp [ih s (u + 1) (a + 1)]
      · by_cases heq : c.operator = ("=")
        · simp only [SimplexSolver.convertConsGo]
          rw [if_neg hle, if_neg hge, if_pos heq]
          simp [ih s u (a + 1)]
        · simp only [SimplexSolver.convertConsGo]
          rw [if_neg hle, if_neg hge, if_neg heq]
          simp [ih s u a]

theorem slackSurplusCol_all_le (p : LPProblem)
    (h : ∀ c ∈ p.constraints, c.operator = ("≤")) (i : ℕ)
    (hi : i ≤ p.constraints.length) :
    slackSurplusCol (SimplexSolver.convertToStandardForm p) i = p.vars.length + i := by
  have hall : ∀ sc ∈ (SimplexSolver.convertToStandardForm p).constraints.take i,
      auxCount sc = 1 := by
    intro sc hsc
    have hm := List.mem_of_mem_take hsc
    simp only [SimplexSolver.convertToStandardForm] at hm
    exact convertConsGo_le_auxCount p.constraints 0 0 0 h sc hm
  have hlen : (SimplexSolver.convertToStandardForm p).constraints.length =
      p.constraints.length := by
    simp only [SimplexSolver.convertToStandardForm]
    exact convertConsGo_length p.constraints 0 0 0
  have hvars : (SimplexSolver.convertToStandardForm p).vars = p.vars := rfl
  rw [slackSurplusCol, hvars, sum_map_one _ _ hall, List.length_take, hlen,
    Nat.min_eq_left hi]

/-- C8 (amended): for problems whose constraints are all `≤` — where
constraint `i`'s slack column is exactly column `variables.length + i` — the
shadow price reported by `analyze` for constraint `i` equals the absolute
value of the final tableau's objective-row coefficient at the column of
constraint `i`'s slack variable. In general the analyzer reads column
`variables.length + i`, which for mixed constraint types is not the
slack/surplus column (see the counterexample). -/
theorem C8_shadow_price_le_problems (rand : ℕ → ℚ) (sol : AnalyzeInput)
    (prob : LPProblem) (ft : SimplexTableau) (hopt : sol.isOptimal = true)
    (hft : sol.finalTableau = some ft)
    (hle : ∀ con ∈ prob.constraints, con.operator = ("≤")) (i : ℕ)
    (hi : i < prob.constraints.length) :
    ∃ e, (SensitivityAnalyzer.analyze rand sol prob).shadowPrices.get? i = some e ∧
      e.shadowPrice = |ft.objectiveRow.getD
        (slackSurplusCol (SimplexSolver.convertToStandardForm prob) i) 0| := by
  obtain ⟨opt, ftO⟩ := sol
  simp only at hopt hft
  subst hopt
  subst hft
  have hsp : (SensitivityAnalyzer.analyze rand ⟨true, some ft⟩ prob).shadowPrices =
      (SensitivityAnalyzer.shadowPricesGo rand ft.objectiveRow prob.vars.length
        prob.constraints 0 0).1 := rfl
  rw [hsp]
  obtain ⟨e, he, hval⟩ := shadowPricesGo_get prob.constraints rand ft.objectiveRow
    prob.vars.length 0 0 i hi
  refine ⟨e, he, ?_⟩
  rw [hval]
  simp only [Nat.zero_add]
  rw [if_abs_getD, slackSurplusCol_all_le prob hle i (le_of_lt hi)]

/-- Witness for C8 (amended) on Scenario A (all constraints `≤`), at
constraint 0. -/
theorem C8_shadow_price_le_problems_witness :
    ∃ e, (SensitivityAnalyzer.analyze (fun _ => 0)
        (toAnalyzeInput (SimplexSolver.solve scnA)) scnA).shadowPrices.get? 0
          = some e ∧
      e.shadowPrice = |(SimplexSolver.solve scnA).finalTableau.objectiveRow.getD
        (slackSurplusCol (SimplexSolver.convertToStandardForm scnA) 0) 0| :=
  C8_shadow_price_le_problems (fun _ => 0) (toAnalyzeInput (SimplexSolver.solve scnA))
    scnA (SimplexSolver.solve scnA).finalTableau (by with_unfolding_all decide) rfl
    (by with_unfolding_all decide) 0 (by with_unfolding_all decide)
